import Mathlib

/-!
Shallow embedding of `src/delta_join.rs`: a three-way incremental equi-join
over Order/User/Province change streams, built either as an ordinary join
(`regular_join`, `regular_join_core`), as a delta join (`delta_join`), or as a
delta join with a key-only secondary index (`delta_join_late_materialization`).

A differential-dataflow collection is modelled as a list of update triples
`(data, time, multiplicity)` with `u64` logical times modelled as `Nat` and
`isize` multiplicities as `Int`.  The engine primitives (`arrange_by_key`,
`join_map`, `join_core`, `half_join`) come from external crates; they are
modelled from the contract the spec states for them (§4.2): an arrangement is
logically the keyed update list itself, and each join pairs key-matched
updates, multiplying multiplicities.
-/

/-- User id newtype (`Uid(u64)`). -/
structure Uid where
  val : Nat
deriving DecidableEq

/-- Order id newtype (`Oid(u64)`). -/
structure Oid where
  val : Nat
deriving DecidableEq

/-- Province id newtype (`Pid(u64)`). -/
structure Pid where
  val : Nat
deriving DecidableEq

/-- An order record. -/
structure Order where
  oid : Oid
  price : Nat
  uid : Uid
deriving DecidableEq

/-- A user record. -/
structure User where
  uid : Uid
  pid : Pid
deriving DecidableEq

/-- A province record. -/
structure Province where
  pid : Pid
  name : String
deriving DecidableEq

/-- A differential collection: a finite list of updates `(data, time, mult)`. -/
abbrev Collection (D : Type) := List (D × Nat × Int)

/-- `Collection::map`: apply a function to the data of every update. -/
def cmap {A B : Type} (f : A → B) (xs : Collection A) : Collection B :=
  xs.map (fun e => (f e.1, e.2.1, e.2.2))

/-- Modelled from the spec: the engine's `arrange` (§4.2, missing from src/).
An arrangement is logically the keyed update list it indexes; incremental
maintenance and physical layout are the engine's concern. -/
def arrange_by_key {K V : Type} (xs : Collection (K × V)) : Collection (K × V) :=
  xs

/-- Modelled from the spec: the engine's pairwise incremental `join_map`
(§4.2/§4.7, missing from src/): key-matched updates pair up, output data is
combined, the output time is the lattice join (here `max`) of the input times
and the multiplicity the product of the input multiplicities. -/
def join_map {K A B C : Type} [DecidableEq K]
    (xs : Collection (K × A)) (ys : Collection (K × B))
    (f : K → A → B → C) : Collection C :=
  xs.flatMap (fun x =>
    (ys.filter (fun y => decide (y.1.1 = x.1.1))).map
      (fun y => (f x.1.1 x.1.2 y.1.2, max x.2.1 y.2.1, x.2.2 * y.2.2)))

/-- Modelled from the spec: `join_core` over two arrangements (§4.7, missing
from src/), identical to `join_map` except that the combining function may
drop pairs by returning `none`. -/
def join_core {K A B C : Type} [DecidableEq K]
    (xs : Collection (K × A)) (ys : Collection (K × B))
    (f : K → A → B → Option C) : Collection C :=
  xs.flatMap (fun x =>
    (ys.filter (fun y => decide (y.1.1 = x.1.1))).filterMap
      (fun y => (f x.1.1 x.1.2 y.1.2).map
        (fun c => (c, max x.2.1 y.2.1, x.2.2 * y.2.2))))

/-- `u64::saturating_sub`. -/
def saturating_sub (a b : Nat) : Nat :=
  if a ≤ b then 0 else a - b

/-- The frontier function passed to every `half_join` step: an event's time is
mapped to its saturating predecessor (`time.saturating_sub(1)` inserted into
the antichain). -/
def frontier_func (time : Nat) : Nat :=
  saturating_sub time 1

/-- The visibility closure `|t1, t2| t1 < t2` used where the path's relation
has lower priority than the probed relation. -/
def visible_lt (t1 t2 : Nat) : Bool :=
  decide (t1 < t2)

/-- The visibility closure `|t1, t2| t1 <= t2` used where the path's relation
has higher priority than the probed relation. -/
def visible_le (t1 t2 : Nat) : Bool :=
  decide (t1 ≤ t2)

/-- Modelled from the spec: the engine's `half_join` primitive (§4.2, missing
from src/): every change event, carrying its originating time as payload,
probes the arrangement, keeps the key-matched entries the visibility predicate
admits (the predicate receives the arrangement entry's time first and the
event's payload time second, matching the priority comments in the source),
and emits the combined data tagged with the event's payload time, with the
product of the two multiplicities.  The frontier function only gates operator
progress in the engine and does not alter the emitted multiset. -/
def half_join {K V W D : Type} [DecidableEq K]
    (stream : Collection (K × V × Nat)) (arrangement : Collection (K × W))
    (frontier : Nat → Nat) (visible : Nat → Nat → Bool)
    (combine : K → V → W → D) : Collection (D × Nat) :=
  stream.flatMap (fun s =>
    (arrangement.filter
        (fun a => decide (a.1.1 = s.1.1) && visible a.2.1 s.1.2.2)).map
      (fun a =>
        ((combine s.1.1 s.1.2.1 a.1.2, s.1.2.2),
          max s.2.1 a.2.1, s.2.2 * a.2.2)))

/-- `.map(|((k, v), t)| (k, v, t))`: reshape a half-join output into the
keyed-change shape the next half-join consumes. -/
def remap_kvt {K V : Type} (xs : Collection ((K × V) × Nat)) :
    Collection (K × V × Nat) :=
  cmap (fun x => (x.1.1, x.1.2, x.2)) xs

/-- `.inner.map(|((d, t), _, r)| (d, t, r))`: stamp every emitted tuple with
its payload (originating-event) time. -/
def final_map {D : Type} (xs : Collection (D × Nat)) : Collection D :=
  xs.map (fun e => (e.1.1, e.1.2, e.2.2))

/-- `regular_join`: the baseline oracle, two ordinary pairwise joins. -/
def regular_join (order : Collection Order) (user : Collection User)
    (province : Collection Province) : Collection (Order × User × Province) :=
  join_map
    (join_map (cmap (fun o => (o.uid, o)) order) (cmap (fun u => (u.uid, u)) user)
      (fun _ o u => (u.pid, (o, u))))
    (cmap (fun p => (p.pid, p)) province)
    (fun _ ou p => (ou.1, ou.2, p))

/-- `regular_join_core`: the baseline expressed over explicit arrangements,
materializing the intermediate order-user join as its own arrangement. -/
def regular_join_core (order : Collection Order) (user : Collection User)
    (province : Collection Province) : Collection (Order × User × Province) :=
  let order_a := arrange_by_key (cmap (fun o => (o.uid, o)) order)
  let user_a := arrange_by_key (cmap (fun u => (u.uid, u)) user)
  let province_a := arrange_by_key (cmap (fun p => (p.pid, p)) province)
  let intermediate :=
    arrange_by_key
      (join_core order_a user_a (fun _ o u => some (u.pid, (o, u))))
  join_core intermediate province_a (fun _ ou p => some (ou.1, ou.2, p))

/-- `order.map(|o| (o.uid, o)).arrange_by_key()`. -/
def order_arrange (order : Collection Order) : Collection (Uid × Order) :=
  arrange_by_key (cmap (fun o => (o.uid, o)) order)

/-- `user.map(|u| (u.uid, u)).arrange_by_key()`. -/
def user_uid_arrange (user : Collection User) : Collection (Uid × User) :=
  arrange_by_key (cmap (fun u => (u.uid, u)) user)

/-- `user.map(|u| (u.pid, u)).arrange_by_key()` (full-record secondary index
of `delta_join`). -/
def user_pid_arrange (user : Collection User) : Collection (Pid × User) :=
  arrange_by_key (cmap (fun u => (u.pid, u)) user)

/-- `user.map(|u| (u.pid, u.uid)).arrange_by_key()` (key-only secondary index
of `delta_join_late_materialization`). -/
def user_pid_arrange_lm (user : Collection User) : Collection (Pid × Uid) :=
  arrange_by_key (cmap (fun u => (u.pid, u.uid)) user)

/-- `province.map(|p| (p.pid, p)).arrange_by_key()`. -/
def province_arrange (province : Collection Province) :
    Collection (Pid × Province) :=
  arrange_by_key (cmap (fun p => (p.pid, p)) province)

/-- `order.inner.map(|(o, t, r)| ((o.uid, o, t), t, r))`. -/
def order_change (order : Collection Order) : Collection (Uid × Order × Nat) :=
  order.map (fun e => ((e.1.uid, e.1, e.2.1), e.2.1, e.2.2))

/-- `user.inner.map(|(u, t, r)| ((u.uid, u, t), t, r))`. -/
def user_change (user : Collection User) : Collection (Uid × User × Nat) :=
  user.map (fun e => ((e.1.uid, e.1, e.2.1), e.2.1, e.2.2))

/-- `province.inner.map(|(p, t, r)| ((p.pid, p, t), t, r))`. -/
def province_change (province : Collection Province) :
    Collection (Pid × Province × Nat) :=
  province.map (fun e => ((e.1.pid, e.1, e.2.1), e.2.1, e.2.2))

/-- `delta_join`'s order-update path: order changes half-join the user
arrangement (strict visibility) and then the province arrangement (strict
visibility). -/
def order_path (order : Collection Order) (user : Collection User)
    (province : Collection Province) :
    Collection ((Order × User × Province) × Nat) :=
  half_join
    (remap_kvt (half_join (order_change order) (user_uid_arrange user)
      frontier_func visible_lt (fun _ o u => (u.pid, (o, u)))))
    (province_arrange province)
    frontier_func visible_lt (fun _ ou p => (ou.1, ou.2, p))

/-- `delta_join`'s user-update path: user changes half-join the order
arrangement (tie-visible) and then the province arrangement (strict). -/
def user_path (order : Collection Order) (user : Collection User)
    (province : Collection Province) :
    Collection ((Order × User × Province) × Nat) :=
  half_join
    (remap_kvt (half_join (user_change user) (order_arrange order)
      frontier_func visible_le (fun _ u o => (u.pid, (o, u)))))
    (province_arrange province)
    frontier_func visible_lt (fun _ ou p => (ou.1, ou.2, p))

/-- `delta_join`'s province-update path: province changes half-join the
pid-keyed user arrangement (tie-visible) and then the order arrangement
(tie-visible). -/
def province_path (order : Collection Order) (user : Collection User)
    (province : Collection Province) :
    Collection ((Order × User × Province) × Nat) :=
  half_join
    (remap_kvt (half_join (province_change province) (user_pid_arrange user)
      frontier_func visible_le (fun _ p u => (u.uid, (u, p)))))
    (order_arrange order)
    frontier_func visible_le (fun _ up o => (o, up.1, up.2))

/-- `delta_join`: concatenate the three delta paths and stamp every result
with its originating event's time. -/
def delta_join (order : Collection Order) (user : Collection User)
    (province : Collection Province) : Collection (Order × User × Province) :=
  final_map
    (order_path order user province ++ user_path order user province ++
      province_path order user province)

/-- Late-materialization variant of the order path (identical construction to
`order_path`; the source duplicates it). -/
def order_path_lm (order : Collection Order) (user : Collection User)
    (province : Collection Province) :
    Collection ((Order × User × Province) × Nat) :=
  half_join
    (remap_kvt (half_join (order_change order) (user_uid_arrange user)
      frontier_func visible_lt (fun _ o u => (u.pid, (o, u)))))
    (province_arrange province)
    frontier_func visible_lt (fun _ ou p => (ou.1, ou.2, p))

/-- Late-materialization variant of the user path (identical construction to
`user_path`; the source duplicates it). -/
def user_path_lm (order : Collection Order) (user : Collection User)
    (province : Collection Province) :
    Collection ((Order × User × Province) × Nat) :=
  half_join
    (remap_kvt (half_join (user_change user) (order_arrange order)
      frontier_func visible_le (fun _ u o => (u.pid, (o, u)))))
    (province_arrange province)
    frontier_func visible_lt (fun _ ou p => (ou.1, ou.2, p))

/-- Late-materialization province path: province changes half-join the
key-only pid index (tie-visible), then resolve the uid through the primary
user arrangement (tie-visible), then half-join the order arrangement
(tie-visible). -/
def province_path_lm (order : Collection Order) (user : Collection User)
    (province : Collection Province) :
    Collection ((Order × User × Province) × Nat) :=
  half_join
    (remap_kvt (half_join
      (remap_kvt (half_join (province_change province) (user_pid_arrange_lm user)
        frontier_func visible_le (fun _ p uid => (uid, p))))
      (user_uid_arrange user)
      frontier_func visible_le (fun _ p u => (u.uid, (u, p)))))
    (order_arrange order)
    frontier_func visible_le (fun _ up o => (o, up.1, up.2))

/-- `delta_join_late_materialization`: as `delta_join`, but the pid-keyed
secondary index of `User` stores only the uid, and the province path resolves
it back through the primary arrangement. -/
def delta_join_late_materialization (order : Collection Order)
    (user : Collection User) (province : Collection Province) :
    Collection (Order × User × Province) :=
  final_map
    (order_path_lm order user province ++ user_path_lm order user province ++
      province_path_lm order user province)

/-! ## Summation infrastructure

`isum xs f` sums an integer-valued function over a list; `sumWhere` is the
consolidated multiplicity of one data value restricted by a time predicate,
from which both the per-time multiplicity (`multAt`) and the accumulation up
to a time (`accumAt`) are read off. -/

/-- Sum of an integer-valued function over a list. -/
def isum {α : Type} (xs : List α) (f : α → Int) : Int :=
  (xs.map f).sum

theorem isum_nil {α : Type} (f : α → Int) : isum ([] : List α) f = 0 := rfl

theorem isum_cons {α : Type} (a : α) (xs : List α) (f : α → Int) :
    isum (a :: xs) f = f a + isum xs f := by
  simp [isum]

theorem isum_append {α : Type} (xs ys : List α) (f : α → Int) :
    isum (xs ++ ys) f = isum xs f + isum ys f := by
  simp [isum]

theorem isum_map {α β : Type} (g : α → β) (xs : List α) (f : β → Int) :
    isum (xs.map g) f = isum xs (fun x => f (g x)) := by
  simp [isum, List.map_map]; rfl

theorem isum_flatMap {α β : Type} (g : α → List β) (xs : List α) (f : β → Int) :
    isum (xs.flatMap g) f = isum xs (fun x => isum (g x) f) := by
  induction xs with
  | nil => rfl
  | cons a xs ih => simp [List.flatMap_cons, isum_append, isum_cons, ih]

theorem isum_filter {α : Type} (p : α → Bool) (xs : List α) (f : α → Int) :
    isum (xs.filter p) f = isum xs (fun x => if p x = true then f x else 0) := by
  induction xs with
  | nil => rfl
  | cons a xs ih =>
    by_cases h : p a = true
    · simp [List.filter_cons, h, isum_cons, ih]
    · simp [List.filter_cons, h, isum_cons, ih]

theorem isum_congr {α : Type} {xs : List α} {f g : α → Int}
    (h : ∀ x ∈ xs, f x = g x) : isum xs f = isum xs g := by
  induction xs with
  | nil => rfl
  | cons a xs ih =>
    rw [isum_cons, isum_cons, h a (by simp), ih (fun x hx => h x (by simp [hx]))]

theorem isum_zero {α : Type} (xs : List α) : isum xs (fun _ => (0 : Int)) = 0 := by
  induction xs with
  | nil => rfl
  | cons a xs ih => rw [isum_cons, ih]; ring

theorem isum_add {α : Type} (xs : List α) (f g : α → Int) :
    isum xs (fun x => f x + g x) = isum xs f + isum xs g := by
  induction xs with
  | nil => rfl
  | cons a xs ih => rw [isum_cons, isum_cons, isum_cons, ih]; ring

theorem isum_mul_right {α : Type} (xs : List α) (f : α → Int) (c : Int) :
    isum xs (fun x => f x * c) = isum xs f * c := by
  induction xs with
  | nil => simp [isum_nil]
  | cons a xs ih => rw [isum_cons, isum_cons, ih]; ring

theorem isum_mul_left {α : Type} (xs : List α) (f : α → Int) (c : Int) :
    isum xs (fun x => c * f x) = c * isum xs f := by
  induction xs with
  | nil => simp [isum_nil]
  | cons a xs ih => rw [isum_cons, isum_cons, ih]; ring

theorem isum_comm {α β : Type} (xs : List α) (ys : List β) (f : α → β → Int) :
    isum xs (fun x => isum ys (fun y => f x y)) =
      isum ys (fun y => isum xs (fun x => f x y)) := by
  induction xs with
  | nil => rw [isum_nil, Eq.symm (isum_zero ys)]; rfl
  | cons a xs ih => rw [isum_cons, ih, Eq.symm (isum_add ys _ _)]; rfl

theorem ite_isum {α : Type} (p : Prop) [Decidable p] (xs : List α) (f : α → Int) :
    (if p then isum xs f else 0) = isum xs (fun x => if p then f x else 0) := by
  by_cases h : p
  · simp [h]
  · simp [h, isum_zero]

theorem ite_ite_zero (p q : Prop) [Decidable p] [Decidable q] (x : Int) :
    (if p then (if q then x else 0) else 0) = if p ∧ q then x else 0 := by
  split_ifs <;> simp_all

theorem isum_exists_ne_zero {α : Type} {xs : List α} {f : α → Int}
    (h : isum xs f ≠ 0) : ∃ x ∈ xs, f x ≠ 0 := by
  induction xs with
  | nil => exact absurd rfl h
  | cons a xs ih =>
    rw [isum_cons] at h
    by_cases ha : f a = 0
    · rcases ih (by rw [ha, zero_add] at h; exact h) with ⟨x, hx, hfx⟩
      exact ⟨x, by simp [hx], hfx⟩
    · exact ⟨a, by simp, ha⟩

/-- Consolidated multiplicity of data value `d` over the times `τ` admits. -/
def sumWhere {D : Type} [DecidableEq D] (xs : Collection D) (d : D)
    (τ : Nat → Bool) : Int :=
  isum xs (fun e => if e.1 = d ∧ τ e.2.1 = true then e.2.2 else 0)

/-- Consolidated multiplicity of `d` at exactly time `t`. -/
def multAt {D : Type} [DecidableEq D] (xs : Collection D) (d : D) (t : Nat) : Int :=
  sumWhere xs d (fun s => decide (s = t))

/-- Accumulated multiplicity of `d` over all times `≤ t`. -/
def accumAt {D : Type} [DecidableEq D] (xs : Collection D) (d : D) (t : Nat) : Int :=
  sumWhere xs d (fun s => decide (s ≤ t))

/-! ## Canonical sum forms for the join constructions -/

theorem isum_cmap {A B : Type} (g : A → B) (xs : Collection A)
    (F : B × Nat × Int → Int) :
    isum (cmap g xs) F = isum xs (fun e => F (g e.1, e.2.1, e.2.2)) := by
  rw [cmap, isum_map]

theorem isum_final_map {D : Type} (xs : Collection (D × Nat))
    (F : D × Nat × Int → Int) :
    isum (final_map xs) F = isum xs (fun e => F (e.1.1, e.1.2, e.2.2)) := by
  rw [final_map, isum_map]

theorem isum_half_join {K V W D : Type} [DecidableEq K]
    (stream : Collection (K × V × Nat)) (arrangement : Collection (K × W))
    (ff : Nat → Nat) (v : Nat → Nat → Bool) (c : K → V → W → D)
    (F : (D × Nat) × Nat × Int → Int) :
    isum (half_join stream arrangement ff v c) F =
      isum stream (fun s => isum arrangement (fun a =>
        if a.1.1 = s.1.1 ∧ v a.2.1 s.1.2.2 = true
        then F ((c s.1.1 s.1.2.1 a.1.2, s.1.2.2), max s.2.1 a.2.1, s.2.2 * a.2.2)
        else 0)) := by
  rw [half_join, isum_flatMap]
  apply isum_congr
  intro s _
  rw [isum_map, isum_filter]
  apply isum_congr
  intro a _
  simp only [Bool.and_eq_true, decide_eq_true_eq]

theorem isum_join_map {K A B C : Type} [DecidableEq K]
    (xs : Collection (K × A)) (ys : Collection (K × B)) (f : K → A → B → C)
    (F : C × Nat × Int → Int) :
    isum (join_map xs ys f) F =
      isum xs (fun x => isum ys (fun y =>
        if y.1.1 = x.1.1
        then F (f x.1.1 x.1.2 y.1.2, max x.2.1 y.2.1, x.2.2 * y.2.2)
        else 0)) := by
  rw [join_map, isum_flatMap]
  apply isum_congr
  intro x _
  rw [isum_map, isum_filter]
  apply isum_congr
  intro y _
  simp only [decide_eq_true_eq]

theorem sumWhere_regular_join (O : Collection Order) (U : Collection User)
    (P : Collection Province) (d : Order × User × Province) (τ : Nat → Bool) :
    sumWhere (regular_join O U P) d τ =
      isum O (fun x => isum U (fun y => isum P (fun z =>
        if y.1.uid = x.1.uid ∧ z.1.pid = y.1.pid ∧ (x.1, y.1, z.1) = d ∧
           τ (max (max x.2.1 y.2.1) z.2.1) = true
        then x.2.2 * y.2.2 * z.2.2 else 0))) := by
  rw [sumWhere, regular_join, isum_join_map, isum_join_map]
  rw [isum_cmap]
  apply isum_congr
  intro x _
  rw [isum_cmap]
  apply isum_congr
  intro y _
  rw [ite_isum, isum_cmap]
  apply isum_congr
  intro z _
  rw [ite_ite_zero, ite_ite_zero]
  exact if_congr (by tauto) rfl rfl

theorem sumWhere_path2 {K1 V1 W1 K2 V2 W2 D : Type}
    [DecidableEq K1] [DecidableEq K2] [DecidableEq D]
    (ch : Collection (K1 × V1 × Nat)) (A1 : Collection (K1 × W1))
    (ff : Nat → Nat) (v1 : Nat → Nat → Bool) (c1 : K1 → V1 → W1 → K2 × V2)
    (A2 : Collection (K2 × W2)) (v2 : Nat → Nat → Bool)
    (c2 : K2 → V2 → W2 → D) (d : D) (τ : Nat → Bool) :
    sumWhere (final_map (half_join (remap_kvt (half_join ch A1 ff v1 c1))
        A2 ff v2 c2)) d τ =
      isum ch (fun s => isum A1 (fun a => isum A2 (fun b =>
        if a.1.1 = s.1.1 ∧ v1 a.2.1 s.1.2.2 = true ∧
           b.1.1 = (c1 s.1.1 s.1.2.1 a.1.2).1 ∧ v2 b.2.1 s.1.2.2 = true ∧
           c2 (c1 s.1.1 s.1.2.1 a.1.2).1 (c1 s.1.1 s.1.2.1 a.1.2).2 b.1.2 = d ∧
           τ s.1.2.2 = true
        then s.2.2 * a.2.2 * b.2.2 else 0))) := by
  rw [sumWhere, isum_final_map, isum_half_join, remap_kvt, isum_cmap,
    isum_half_join]
  apply isum_congr
  intro s _
  apply isum_congr
  intro a _
  dsimp only
  rw [ite_isum]
  apply isum_congr
  intro b _
  rw [ite_ite_zero, ite_ite_zero]
  exact if_congr (by tauto) (by ring) rfl

theorem sumWhere_path3 {K1 V1 W1 K2 V2 W2 K3 V3 W3 D : Type}
    [DecidableEq K1] [DecidableEq K2] [DecidableEq K3] [DecidableEq D]
    (ch : Collection (K1 × V1 × Nat)) (A1 : Collection (K1 × W1))
    (ff : Nat → Nat) (v1 : Nat → Nat → Bool) (c1 : K1 → V1 → W1 → K2 × V2)
    (A2 : Collection (K2 × W2)) (v2 : Nat → Nat → Bool)
    (c2 : K2 → V2 → W2 → K3 × V3)
    (A3 : Collection (K3 × W3)) (v3 : Nat → Nat → Bool)
    (c3 : K3 → V3 → W3 → D) (d : D) (τ : Nat → Bool) :
    sumWhere (final_map (half_join (remap_kvt (half_join
        (remap_kvt (half_join ch A1 ff v1 c1)) A2 ff v2 c2))
        A3 ff v3 c3)) d τ =
      isum ch (fun s => isum A1 (fun a => isum A2 (fun b => isum A3 (fun c =>
        if a.1.1 = s.1.1 ∧ v1 a.2.1 s.1.2.2 = true ∧
           b.1.1 = (c1 s.1.1 s.1.2.1 a.1.2).1 ∧ v2 b.2.1 s.1.2.2 = true ∧
           c.1.1 = (c2 (c1 s.1.1 s.1.2.1 a.1.2).1
                      (c1 s.1.1 s.1.2.1 a.1.2).2 b.1.2).1 ∧
           v3 c.2.1 s.1.2.2 = true ∧
           c3 (c2 (c1 s.1.1 s.1.2.1 a.1.2).1 (c1 s.1.1 s.1.2.1 a.1.2).2 b.1.2).1
              (c2 (c1 s.1.1 s.1.2.1 a.1.2).1 (c1 s.1.1 s.1.2.1 a.1.2).2 b.1.2).2
              c.1.2 = d ∧
           τ s.1.2.2 = true
        then s.2.2 * a.2.2 * b.2.2 * c.2.2 else 0)))) := by
  rw [sumWhere, isum_final_map, isum_half_join, remap_kvt, isum_cmap,
    isum_half_join, remap_kvt, isum_cmap, isum_half_join]
  apply isum_congr
  intro s _
  apply isum_congr
  intro a _
  dsimp only
  rw [ite_isum]
  apply isum_congr
  intro b _
  rw [ite_ite_zero]
  try dsimp only
  rw [ite_isum]
  apply isum_congr
  intro c _
  rw [ite_ite_zero, ite_ite_zero]
  exact if_congr (by tauto) (by ring) rfl

theorem sumWhere_order_path (O : Collection Order) (U : Collection User)
    (P : Collection Province) (d : Order × User × Province) (τ : Nat → Bool) :
    sumWhere (final_map (order_path O U P)) d τ =
      isum O (fun x => isum U (fun y => isum P (fun z =>
        if y.1.uid = x.1.uid ∧ visible_lt y.2.1 x.2.1 = true ∧
           z.1.pid = y.1.pid ∧ visible_lt z.2.1 x.2.1 = true ∧
           (x.1, y.1, z.1) = d ∧ τ x.2.1 = true
        then x.2.2 * y.2.2 * z.2.2 else 0))) := by
  rw [order_path, sumWhere_path2, order_change, isum_map]
  simp only [user_uid_arrange, province_arrange, arrange_by_key, isum_cmap]

theorem sumWhere_user_path (O : Collection Order) (U : Collection User)
    (P : Collection Province) (d : Order × User × Province) (τ : Nat → Bool) :
    sumWhere (final_map (user_path O U P)) d τ =
      isum U (fun y => isum O (fun x => isum P (fun z =>
        if x.1.uid = y.1.uid ∧ visible_le x.2.1 y.2.1 = true ∧
           z.1.pid = y.1.pid ∧ visible_lt z.2.1 y.2.1 = true ∧
           (x.1, y.1, z.1) = d ∧ τ y.2.1 = true
        then y.2.2 * x.2.2 * z.2.2 else 0))) := by
  rw [user_path, sumWhere_path2, user_change, isum_map]
  simp only [order_arrange, province_arrange, arrange_by_key, isum_cmap]

theorem sumWhere_province_path (O : Collection Order) (U : Collection User)
    (P : Collection Province) (d : Order × User × Province) (τ : Nat → Bool) :
    sumWhere (final_map (province_path O U P)) d τ =
      isum P (fun z => isum U (fun y => isum O (fun x =>
        if y.1.pid = z.1.pid ∧ visible_le y.2.1 z.2.1 = true ∧
           x.1.uid = y.1.uid ∧ visible_le x.2.1 z.2.1 = true ∧
           (x.1, y.1, z.1) = d ∧ τ z.2.1 = true
        then z.2.2 * y.2.2 * x.2.2 else 0))) := by
  rw [province_path, sumWhere_path2, province_change, isum_map]
  simp only [user_pid_arrange, order_arrange, arrange_by_key, isum_cmap]

theorem sumWhere_province_path_lm (O : Collection Order) (U : Collection User)
    (P : Collection Province) (d : Order × User × Province) (τ : Nat → Bool) :
    sumWhere (final_map (province_path_lm O U P)) d τ =
      isum P (fun z => isum U (fun y1 => isum U (fun y2 => isum O (fun x =>
        if y1.1.pid = z.1.pid ∧ visible_le y1.2.1 z.2.1 = true ∧
           y2.1.uid = y1.1.uid ∧ visible_le y2.2.1 z.2.1 = true ∧
           x.1.uid = y2.1.uid ∧ visible_le x.2.1 z.2.1 = true ∧
           (x.1, y2.1, z.1) = d ∧ τ z.2.1 = true
        then z.2.2 * y1.2.2 * y2.2.2 * x.2.2 else 0)))) := by
  rw [province_path_lm, sumWhere_path3, province_change, isum_map]
  simp only [user_pid_arrange_lm, user_uid_arrange, order_arrange,
    arrange_by_key, isum_cmap]

theorem order_path_lm_eq (O : Collection Order) (U : Collection User)
    (P : Collection Province) : order_path_lm O U P = order_path O U P := rfl

theorem user_path_lm_eq (O : Collection Order) (U : Collection User)
    (P : Collection Province) : user_path_lm O U P = user_path O U P := rfl

/-! ## Delta join agrees with the baseline join -/

theorem tri_time_pure (τ : Nat → Bool) (t1 t2 t3 : Nat) (w : Int) :
    (if t2 < t1 ∧ t3 < t1 ∧ τ t1 = true then w else 0) +
      ((if t1 ≤ t2 ∧ t3 < t2 ∧ τ t2 = true then w else 0) +
        (if t2 ≤ t3 ∧ t1 ≤ t3 ∧ τ t3 = true then w else 0)) =
      if τ (max (max t1 t2) t3) = true then w else 0 := by
  by_cases h23 : t2 ≤ t3
  · by_cases h13 : t1 ≤ t3
    · have hmax : max (max t1 t2) t3 = t3 := by omega
      have e1 : (if t2 < t1 ∧ t3 < t1 ∧ τ t1 = true then w else 0) = 0 := by
        rw [if_neg]; rintro ⟨-, h, -⟩; omega
      have e2 : (if t1 ≤ t2 ∧ t3 < t2 ∧ τ t2 = true then w else 0) = 0 := by
        rw [if_neg]; rintro ⟨-, h, -⟩; omega
      rw [hmax, e1, e2]
      simp [h23, h13]
    · have hlt : t3 < t1 := by omega
      have h21 : t2 < t1 := by omega
      have hmax : max (max t1 t2) t3 = t1 := by omega
      have e2 : (if t1 ≤ t2 ∧ t3 < t2 ∧ τ t2 = true then w else 0) = 0 := by
        rw [if_neg]; rintro ⟨h, -, -⟩; omega
      have e3 : (if t2 ≤ t3 ∧ t1 ≤ t3 ∧ τ t3 = true then w else 0) = 0 := by
        rw [if_neg]; rintro ⟨-, h, -⟩; omega
      rw [hmax, e2, e3]
      simp [hlt, h21]
  · by_cases h12 : t1 ≤ t2
    · have h32 : t3 < t2 := by omega
      have hmax : max (max t1 t2) t3 = t2 := by omega
      have e1 : (if t2 < t1 ∧ t3 < t1 ∧ τ t1 = true then w else 0) = 0 := by
        rw [if_neg]; rintro ⟨h, -, -⟩; omega
      have e3 : (if t2 ≤ t3 ∧ t1 ≤ t3 ∧ τ t3 = true then w else 0) = 0 := by
        rw [if_neg]; rintro ⟨h, -, -⟩; omega
      rw [hmax, e1, e3]
      simp [h12, h32]
    · have h21 : t2 < t1 := by omega
      have h31 : t3 < t1 := by omega
      have hmax : max (max t1 t2) t3 = t1 := by omega
      have e2 : (if t1 ≤ t2 ∧ t3 < t2 ∧ τ t2 = true then w else 0) = 0 := by
        rw [if_neg]; rintro ⟨h, -, -⟩; omega
      have e3 : (if t2 ≤ t3 ∧ t1 ≤ t3 ∧ τ t3 = true then w else 0) = 0 := by
        rw [if_neg]; rintro ⟨h, -, -⟩; omega
      rw [hmax, e2, e3]
      simp [h21, h31]

theorem isum_swap23 {α β γ : Type} (xs : List α) (ys : List β) (zs : List γ)
    (f : α → β → γ → Int) :
    isum xs (fun x => isum ys (fun y => isum zs (fun z => f x y z))) =
      isum xs (fun x => isum zs (fun z => isum ys (fun y => f x y z))) :=
  isum_congr (fun x _ => isum_comm ys zs (f x))

theorem sumWhere_delta_eq_regular (O : Collection Order) (U : Collection User)
    (P : Collection Province) (d : Order × User × Province) (τ : Nat → Bool) :
    sumWhere (delta_join O U P) d τ = sumWhere (regular_join O U P) d τ := by
  have hsplit : sumWhere (delta_join O U P) d τ =
      sumWhere (final_map (order_path O U P)) d τ +
        (sumWhere (final_map (user_path O U P)) d τ +
          sumWhere (final_map (province_path O U P)) d τ) := by
    rw [delta_join]
    simp only [final_map, List.map_append, sumWhere, isum_append]
    ring
  rw [hsplit, sumWhere_order_path, sumWhere_user_path, sumWhere_province_path,
    sumWhere_regular_join]
  rw [isum_comm U O]
  rw [isum_comm P U]
  rw [isum_swap23 U P O]
  rw [isum_comm U O]
  rw [← isum_add, ← isum_add]
  apply isum_congr
  intro x _
  rw [← isum_add, ← isum_add]
  apply isum_congr
  intro y _
  rw [← isum_add, ← isum_add]
  apply isum_congr
  intro z _
  simp only [visible_lt, visible_le, decide_eq_true_eq]
  by_cases hd : (x.1, y.1, z.1) = d
  · by_cases h1 : y.1.uid = x.1.uid
    · by_cases h2 : z.1.pid = y.1.pid
      · simp only [hd, h1, h2, true_and, and_true, eq_self_iff_true]
        have w2 : y.2.2 * x.2.2 * z.2.2 = x.2.2 * y.2.2 * z.2.2 := by ring
        have w3 : z.2.2 * y.2.2 * x.2.2 = x.2.2 * y.2.2 * z.2.2 := by ring
        rw [w2, w3]
        exact tri_time_pure τ x.2.1 y.2.1 z.2.1 (x.2.2 * y.2.2 * z.2.2)
      · have h2' : ¬(y.1.pid = z.1.pid) := fun h => h2 h.symm
        simp [h2, h2']
    · have h1' : ¬(x.1.uid = y.1.uid) := fun h => h1 h.symm
      simp [h1, h1']
  · simp [hd]

/-! ## Product form of the accumulated baseline join -/

theorem isum_eq_zero {α : Type} {xs : List α} {f : α → Int}
    (h : ∀ x ∈ xs, f x = 0) : isum xs f = 0 := by
  rw [isum_congr h, isum_zero]

theorem isum_ite_factor {α : Type} (xs : List α) (A : Prop) [Decidable A]
    (C : α → Prop) [∀ a, Decidable (C a)] (c : Int) (w : α → Int) :
    isum xs (fun z => if A ∧ C z then c * w z else 0) =
      (if A then c else 0) * isum xs (fun z => if C z then w z else 0) := by
  by_cases hA : A
  · simp only [hA, true_and, if_pos]
    rw [← isum_mul_left]
    apply isum_congr
    intro z _
    by_cases h : C z <;> simp [h]
  · simp [hA, isum_zero]

theorem accum_regular_product (O : Collection Order) (U : Collection User)
    (P : Collection Province) (o : Order) (u : User) (p : Province) (t : Nat) :
    accumAt (regular_join O U P) (o, u, p) t =
      (if u.uid = o.uid ∧ p.pid = u.pid then (1 : Int) else 0) *
        (accumAt O o t * (accumAt U u t * accumAt P p t)) := by
  rw [accumAt, sumWhere_regular_join]
  rw [accumAt, sumWhere, accumAt, sumWhere, accumAt, sumWhere]
  simp only [decide_eq_true_eq, Nat.max_le, Prod.mk.injEq]
  by_cases hK : u.uid = o.uid ∧ p.pid = u.pid
  · calc
      isum O (fun x => isum U (fun y => isum P (fun z =>
          if y.1.uid = x.1.uid ∧ z.1.pid = y.1.pid ∧
             (x.1 = o ∧ y.1 = u ∧ z.1 = p) ∧
             (x.2.1 ≤ t ∧ y.2.1 ≤ t) ∧ z.2.1 ≤ t
          then x.2.2 * y.2.2 * z.2.2 else 0))) =
          isum O (fun x => isum U (fun y => isum P (fun z =>
            if ((x.1 = o ∧ x.2.1 ≤ t) ∧ (y.1 = u ∧ y.2.1 ≤ t)) ∧
               (z.1 = p ∧ z.2.1 ≤ t)
            then (x.2.2 * y.2.2) * z.2.2 else 0))) := by
        apply isum_congr; intro x _
        apply isum_congr; intro y _
        apply isum_congr; intro z _
        refine if_congr ?_ rfl rfl
        constructor
        · rintro ⟨-, -, ⟨hx, hy, hz⟩, ⟨htx, hty⟩, htz⟩
          exact ⟨⟨⟨hx, htx⟩, ⟨hy, hty⟩⟩, ⟨hz, htz⟩⟩
        · rintro ⟨⟨⟨hx, htx⟩, ⟨hy, hty⟩⟩, ⟨hz, htz⟩⟩
          refine ⟨?_, ?_, ⟨hx, hy, hz⟩, ⟨htx, hty⟩, htz⟩
          · rw [hx, hy]; exact hK.1
          · rw [hy, hz]; exact hK.2
      _ = isum O (fun x => isum U (fun y =>
            (if (x.1 = o ∧ x.2.1 ≤ t) ∧ (y.1 = u ∧ y.2.1 ≤ t)
             then x.2.2 * y.2.2 else 0) *
              isum P (fun z => if z.1 = p ∧ z.2.1 ≤ t then z.2.2 else 0))) := by
        apply isum_congr; intro x _
        apply isum_congr; intro y _
        exact isum_ite_factor P _ _ _ _
      _ = isum O (fun x =>
            (isum U (fun y =>
              if (x.1 = o ∧ x.2.1 ≤ t) ∧ (y.1 = u ∧ y.2.1 ≤ t)
              then x.2.2 * y.2.2 else 0)) *
              isum P (fun z => if z.1 = p ∧ z.2.1 ≤ t then z.2.2 else 0)) := by
        apply isum_congr; intro x _
        exact isum_mul_right U _ _
      _ = isum O (fun x =>
            ((if x.1 = o ∧ x.2.1 ≤ t then x.2.2 else 0) *
              isum U (fun y => if y.1 = u ∧ y.2.1 ≤ t then y.2.2 else 0)) *
              isum P (fun z => if z.1 = p ∧ z.2.1 ≤ t then z.2.2 else 0)) := by
        apply isum_congr; intro x _
        rw [isum_ite_factor U _ _ _ _]
      _ = (if u.uid = o.uid ∧ p.pid = u.pid then (1 : Int) else 0) *
            (isum O (fun x => if x.1 = o ∧ x.2.1 ≤ t then x.2.2 else 0) *
              (isum U (fun y => if y.1 = u ∧ y.2.1 ≤ t then y.2.2 else 0) *
                isum P (fun z => if z.1 = p ∧ z.2.1 ≤ t then z.2.2 else 0))) := by
        rw [show (fun x : Order × Nat × Int =>
            ((if x.1 = o ∧ x.2.1 ≤ t then x.2.2 else 0) *
              isum U (fun y => if y.1 = u ∧ y.2.1 ≤ t then y.2.2 else 0)) *
              isum P (fun z => if z.1 = p ∧ z.2.1 ≤ t then z.2.2 else 0)) =
            (fun x : Order × Nat × Int =>
            (if x.1 = o ∧ x.2.1 ≤ t then x.2.2 else 0) *
              (isum U (fun y => if y.1 = u ∧ y.2.1 ≤ t then y.2.2 else 0) *
              isum P (fun z => if z.1 = p ∧ z.2.1 ≤ t then z.2.2 else 0)))
          from funext (fun x => by ring)]
        rw [isum_mul_right, if_pos hK]
        ring
  · calc
      isum O (fun x => isum U (fun y => isum P (fun z =>
          if y.1.uid = x.1.uid ∧ z.1.pid = y.1.pid ∧
             (x.1 = o ∧ y.1 = u ∧ z.1 = p) ∧
             (x.2.1 ≤ t ∧ y.2.1 ≤ t) ∧ z.2.1 ≤ t
          then x.2.2 * y.2.2 * z.2.2 else 0))) = 0 := by
        apply isum_eq_zero; intro x _
        apply isum_eq_zero; intro y _
        apply isum_eq_zero; intro z _
        rw [if_neg]
        rintro ⟨h1, h2, ⟨hx, hy, hz⟩, -, -⟩
        apply hK
        constructor
        · rw [← hy, ← hx]; exact h1
        · rw [← hz, ← hy]; exact h2
      _ = (if u.uid = o.uid ∧ p.pid = u.pid then (1 : Int) else 0) *
            (isum O (fun x => if x.1 = o ∧ x.2.1 ≤ t then x.2.2 else 0) *
              (isum U (fun y => if y.1 = u ∧ y.2.1 ≤ t then y.2.2 else 0) *
                isum P (fun z => if z.1 = p ∧ z.2.1 ≤ t then z.2.2 else 0))) := by
        rw [if_neg hK]
        ring

/-! ## Claims C1, C4, C6, C10 -/

/-- C1: for every finite sequence of insert/delete change events, the multiset
of (Order, User, Province) tuples with multiplicities produced by
`delta_join`, accumulated up to any logical time `t`, equals the multiset
produced by the baseline `regular_join` accumulated as of `t`. -/
theorem claim_C1_delta_join_matches_regular_join
    (O : Collection Order) (U : Collection User) (P : Collection Province)
    (d : Order × User × Province) (t : Nat) :
    accumAt (delta_join O U P) d t = accumAt (regular_join O U P) d t :=
  sumWhere_delta_eq_regular O U P d _

theorem accum_cancel {D : Type} [DecidableEq D] (X : Collection D) (x : D)
    (ti td t : Nat) (hX : ∀ e ∈ X, e.1 ≠ x) (h1 : ti ≤ t) (h2 : td ≤ t) :
    accumAt (X ++ [(x, ti, 1), (x, td, -1)]) x t = 0 := by
  rw [accumAt, sumWhere, isum_append]
  rw [isum_eq_zero (fun e he => if_neg (fun hc => hX e he hc.1))]
  rw [isum_cons, isum_cons, isum_nil]
  simp [h1, h2]

theorem accum_delta_eq_regular (O : Collection Order) (U : Collection User)
    (P : Collection Province) (d : Order × User × Province) (t : Nat) :
    accumAt (delta_join O U P) d t = accumAt (regular_join O U P) d t :=
  sumWhere_delta_eq_regular O U P d _

/-- C4: a record inserted with multiplicity +1 and later deleted with
multiplicity -1 leaves no contribution in the accumulated `delta_join` output
at any time past the delete, whichever of the three relations it belongs to
(assuming the record occurs in no other event of its input stream). -/
theorem claim_C4_retraction_cancellation
    (O : Collection Order) (U : Collection User) (P : Collection Province)
    (ti td t : Nat) (hins : ti < td) (hdel : td ≤ t) :
    ((∀ u : User, (∀ e ∈ U, e.1 ≠ u) → ∀ (o : Order) (p : Province),
        accumAt (delta_join O (U ++ [(u, ti, 1), (u, td, -1)]) P) (o, u, p) t = 0) ∧
      (∀ o : Order, (∀ e ∈ O, e.1 ≠ o) → ∀ (u : User) (p : Province),
        accumAt (delta_join (O ++ [(o, ti, 1), (o, td, -1)]) U P) (o, u, p) t = 0) ∧
      (∀ p : Province, (∀ e ∈ P, e.1 ≠ p) → ∀ (o : Order) (u : User),
        accumAt (delta_join O U (P ++ [(p, ti, 1), (p, td, -1)])) (o, u, p) t = 0)) := by
  have hti : ti ≤ t := Nat.le_of_lt (Nat.lt_of_lt_of_le hins hdel)
  refine ⟨?_, ?_, ?_⟩
  · intro u hu o p
    rw [accum_delta_eq_regular, accum_regular_product,
      accum_cancel U u ti td t hu hti hdel]
    ring
  · intro o ho u p
    rw [accum_delta_eq_regular, accum_regular_product,
      accum_cancel O o ti td t ho hti hdel]
    ring
  · intro p hp o u
    rw [accum_delta_eq_regular, accum_regular_product,
      accum_cancel P p ti td t hp hti hdel]
    ring

/-- Witness for C4 at a concrete input: order and province inserted at time 0,
a user inserted at time 1 and deleted at time 3; at time 3 the accumulated
output holds nothing for the joined tuple. -/
theorem claim_C4_retraction_cancellation_witness :
    accumAt (delta_join [(⟨⟨100⟩, 50, ⟨10⟩⟩, 0, 1)]
        ([] ++ [(⟨⟨10⟩, ⟨1⟩⟩, 1, 1), (⟨⟨10⟩, ⟨1⟩⟩, 3, -1)])
        [(⟨⟨1⟩, "B"⟩, 0, 1)])
      (⟨⟨100⟩, 50, ⟨10⟩⟩, ⟨⟨10⟩, ⟨1⟩⟩, ⟨⟨1⟩, "B"⟩) 3 = 0 :=
  (claim_C4_retraction_cancellation [(⟨⟨100⟩, 50, ⟨10⟩⟩, 0, 1)] []
      [(⟨⟨1⟩, "B"⟩, 0, 1)] 1 3 3 (by decide) (by decide)).1
    ⟨⟨10⟩, ⟨1⟩⟩ (by simp) ⟨⟨100⟩, 50, ⟨10⟩⟩ ⟨⟨1⟩, "B"⟩

/-- C6: the frontier function maps a time to its immediate predecessor,
saturating at 0: it yields `t - 1` for positive `t`, yields `0` at `t = 0`,
and is the greatest time strictly below `t`. -/
theorem claim_C6_frontier_saturating_predecessor :
    (∀ t : Nat, 0 < t → frontier_func t = t - 1) ∧ frontier_func 0 = 0 ∧
      (∀ t s : Nat, s < t → s ≤ frontier_func t) := by
  refine ⟨?_, ?_, ?_⟩
  · intro t ht
    unfold frontier_func saturating_sub
    split_ifs <;> omega
  · rfl
  · intro t s hs
    unfold frontier_func saturating_sub
    split_ifs <;> omega

/-- Witness for C6 at concrete times. -/
theorem claim_C6_frontier_saturating_predecessor_witness :
    frontier_func 3 = 3 - 1 ∧ (2 : Nat) ≤ frontier_func 3 :=
  ⟨claim_C6_frontier_saturating_predecessor.1 3 (by decide),
    claim_C6_frontier_saturating_predecessor.2.2 3 2 (by decide)⟩

theorem filterMap_some_fun {α β : Type} (xs : List α) (g : α → β) :
    xs.filterMap (fun x => some (g x)) = xs.map g := by
  induction xs with
  | nil => rfl
  | cons a xs ih => simp [List.filterMap_cons, ih]

theorem join_core_some {K A B C : Type} [DecidableEq K]
    (xs : Collection (K × A)) (ys : Collection (K × B)) (f : K → A → B → C) :
    join_core xs ys (fun k a b => some (f k a b)) = join_map xs ys f := by
  unfold join_core join_map
  refine congrArg _ (funext fun x => ?_)
  exact filterMap_some_fun _ _

theorem regular_join_core_eq (O : Collection Order) (U : Collection User)
    (P : Collection Province) :
    regular_join_core O U P = regular_join O U P := by
  unfold regular_join_core regular_join arrange_by_key
  rw [join_core_some, join_core_some]

/-- C10: the two baseline constructions produce the same multiset of tuples
with the same times and multiplicities; `regular_join_core` only materializes
the intermediate order-user join as an explicit arrangement. -/
theorem claim_C10_regular_join_core_matches_regular_join
    (O : Collection Order) (U : Collection User) (P : Collection Province)
    (d : Order × User × Province) (t : Nat) :
    multAt (regular_join O U P) d t = multAt (regular_join_core O U P) d t := by
  rw [regular_join_core_eq]

/-! ## Late materialization: key-integrity core lemma -/

theorem accumAt_prop {D : Type} [DecidableEq D] (X : Collection D) (x : D)
    (t : Nat) :
    accumAt X x t = isum X (fun e => if e.1 = x ∧ e.2.1 ≤ t then e.2.2 else 0) := by
  unfold accumAt sumWhere
  apply isum_congr
  intro e _
  simp

theorem user_key_core (U : Collection User)
    (hfd : ∀ x ∈ U, ∀ y ∈ U, x.1.uid = y.1.uid → x.1.pid = y.1.pid)
    (h01 : ∀ (u : User) (t : Nat), accumAt U u t = 0 ∨ accumAt U u t = 1)
    (u : User) (q : Pid) (t : Nat) :
    accumAt U ⟨u.uid, q⟩ t * accumAt U u t =
      (if u.pid = q then (1 : Int) else 0) * accumAt U u t := by
  by_cases hq : u.pid = q
  · subst hq
    rw [if_pos rfl, show (⟨u.uid, u.pid⟩ : User) = u from rfl]
    rcases h01 u t with h | h <;> rw [h] <;> ring
  · rw [if_neg hq]
    by_cases hz : accumAt U u t = 0
    · rw [hz]; ring
    · rw [accumAt_prop] at hz
      obtain ⟨e, he, hne⟩ := isum_exists_ne_zero hz
      have heu : e.1 = u := by
        by_contra h
        simp [h] at hne
      have hW : accumAt U ⟨u.uid, q⟩ t = 0 := by
        rw [accumAt_prop]
        apply isum_eq_zero
        intro f hf
        rw [if_neg]
        rintro ⟨hf1, -⟩
        apply hq
        have hpid := hfd f hf e he (by rw [hf1, heu])
        have : f.1.pid = q := by rw [hf1]
        rw [← this, hpid, heu]
      rw [hW]

/-- Constant part of the province-path condition at one province event: the
event's record and time match the probed tuple and the order-user link holds. -/
abbrev Kzc (d : Order × User × Province) (τ : Nat → Bool) (zp : Province)
    (tz : Nat) : Prop :=
  zp = d.2.2 ∧ d.1.uid = d.2.1.uid ∧ τ tz = true

/-- Condition on the key-only secondary-index entry: it carries the probed
user's uid under the event province's pid, visible at the event time. -/
abbrev Cy1c (d : Order × User × Province) (zp : Province) (tz : Nat)
    (y1 : User × Nat × Int) : Prop :=
  y1.1 = (⟨d.2.1.uid, zp.pid⟩ : User) ∧ y1.2.1 ≤ tz

/-- Condition on the primary user entry: the probed user record, visible. -/
abbrev Cy2c (d : Order × User × Province) (tz : Nat)
    (y : User × Nat × Int) : Prop :=
  y.1 = d.2.1 ∧ y.2.1 ≤ tz

/-- Condition on the order entry: the probed order record, visible. -/
abbrev Cxc (d : Order × User × Province) (tz : Nat)
    (x : Order × Nat × Int) : Prop :=
  x.1 = d.1 ∧ x.2.1 ≤ tz

/-- Accumulated weight of the probed order at the event time. -/
abbrev AXc (O : Collection Order) (d : Order × User × Province)
    (tz : Nat) : Int :=
  isum O (fun x => if Cxc d tz x then x.2.2 else 0)

/-- Accumulated weight of the probed user at the event time. -/
abbrev AYc (U : Collection User) (d : Order × User × Province)
    (tz : Nat) : Int :=
  isum U (fun y => if Cy2c d tz y then y.2.2 else 0)

/-- Accumulated weight of the secondary-index record at the event time. -/
abbrev Wc (U : Collection User) (d : Order × User × Province) (zp : Province)
    (tz : Nat) : Int :=
  isum U (fun y1 => if Cy1c d zp tz y1 then y1.2.2 else 0)

theorem province_step (O : Collection Order) (U : Collection User)
    (hfd : ∀ x ∈ U, ∀ y ∈ U, x.1.uid = y.1.uid → x.1.pid = y.1.pid)
    (h01 : ∀ (u : User) (t : Nat), accumAt U u t = 0 ∨ accumAt U u t = 1)
    (d : Order × User × Province) (τ : Nat → Bool)
    (zp : Province) (tz : Nat) (zr : Int) :
    isum U (fun y1 => isum U (fun y2 => isum O (fun x =>
        if y1.1.pid = zp.pid ∧ y1.2.1 ≤ tz ∧ y2.1.uid = y1.1.uid ∧
           y2.2.1 ≤ tz ∧ x.1.uid = y2.1.uid ∧ x.2.1 ≤ tz ∧
           (x.1, y2.1, zp) = d ∧ τ tz = true
        then zr * y1.2.2 * y2.2.2 * x.2.2 else 0))) =
      isum U (fun y => isum O (fun x =>
        if y.1.pid = zp.pid ∧ y.2.1 ≤ tz ∧ x.1.uid = y.1.uid ∧ x.2.1 ≤ tz ∧
           (x.1, y.1, zp) = d ∧ τ tz = true
        then zr * y.2.2 * x.2.2 else 0)) := by
  have hcore : Wc U d zp tz * AYc U d tz =
      (if d.2.1.pid = zp.pid then (1 : Int) else 0) * AYc U d tz := by
    have h := user_key_core U hfd h01 d.2.1 zp.pid tz
    rw [accumAt_prop, accumAt_prop] at h
    exact h
  calc
    isum U (fun y1 => isum U (fun y2 => isum O (fun x =>
        if y1.1.pid = zp.pid ∧ y1.2.1 ≤ tz ∧ y2.1.uid = y1.1.uid ∧
           y2.2.1 ≤ tz ∧ x.1.uid = y2.1.uid ∧ x.2.1 ≤ tz ∧
           (x.1, y2.1, zp) = d ∧ τ tz = true
        then zr * y1.2.2 * y2.2.2 * x.2.2 else 0))) =
        isum U (fun y1 => isum U (fun y2 => isum O (fun x =>
          if ((Kzc d τ zp tz ∧ Cy1c d zp tz y1) ∧ Cy2c d tz y2) ∧ Cxc d tz x
          then zr * y1.2.2 * y2.2.2 * x.2.2 else 0))) := by
      apply isum_congr; intro y1 _
      apply isum_congr; intro y2 _
      apply isum_congr; intro x _
      refine if_congr ?_ rfl rfl
      constructor
      · rintro ⟨h1, h2, h3, h4, h5, h6, h7, h8⟩
        have hx : x.1 = d.1 := by rw [← h7]
        have hy : y2.1 = d.2.1 := by rw [← h7]
        have hzp : zp = d.2.2 := by rw [← h7]
        have huid : y1.1.uid = d.2.1.uid := by rw [← hy]; exact h3.symm
        refine ⟨⟨⟨⟨hzp, ?_, h8⟩, ?_, h2⟩, hy, h4⟩, hx, h6⟩
        · rw [← hx, ← hy]; exact h5
        · calc y1.1 = ⟨y1.1.uid, y1.1.pid⟩ := rfl
            _ = ⟨d.2.1.uid, zp.pid⟩ := by rw [huid, h1]
      · rintro ⟨⟨⟨⟨hzp, huid, hτ⟩, hy1, hty1⟩, hy2, hty2⟩, hx, htx⟩
        refine ⟨?_, hty1, ?_, hty2, ?_, htx, ?_, hτ⟩
        · rw [hy1]
        · rw [hy2, hy1]
        · rw [hx, hy2]; exact huid
        · rw [hx, hy2, hzp]
    _ = isum U (fun y1 => isum U (fun y2 =>
          (if (Kzc d τ zp tz ∧ Cy1c d zp tz y1) ∧ Cy2c d tz y2
           then zr * y1.2.2 * y2.2.2 else 0) * AXc O d tz)) := by
      apply isum_congr; intro y1 _
      apply isum_congr; intro y2 _
      exact isum_ite_factor O _ _ _ _
    _ = isum U (fun y1 =>
          (isum U (fun y2 =>
            if (Kzc d τ zp tz ∧ Cy1c d zp tz y1) ∧ Cy2c d tz y2
            then zr * y1.2.2 * y2.2.2 else 0)) * AXc O d tz) := by
      apply isum_congr; intro y1 _
      exact isum_mul_right U _ _
    _ = isum U (fun y1 =>
          ((if Kzc d τ zp tz ∧ Cy1c d zp tz y1 then zr * y1.2.2 else 0) *
            AYc U d tz) * AXc O d tz) := by
      apply isum_congr; intro y1 _
      rw [isum_ite_factor U _ _ _ _]
    _ = (isum U (fun y1 =>
          (if Kzc d τ zp tz ∧ Cy1c d zp tz y1 then zr * y1.2.2 else 0) *
            AYc U d tz)) * AXc O d tz := isum_mul_right U _ _
    _ = ((isum U (fun y1 =>
          if Kzc d τ zp tz ∧ Cy1c d zp tz y1 then zr * y1.2.2 else 0)) *
            AYc U d tz) * AXc O d tz := by
      rw [isum_mul_right U _ _]
    _ = (((if Kzc d τ zp tz then zr else 0) * Wc U d zp tz) *
          AYc U d tz) * AXc O d tz := by
      rw [isum_ite_factor U _ _ _ _]
    _ = (((if Kzc d τ zp tz ∧ d.2.1.pid = zp.pid then zr else 0) *
          AYc U d tz)) * AXc O d tz := by
      by_cases hk : Kzc d τ zp tz
      · by_cases hp : d.2.1.pid = zp.pid
        · rw [if_pos hk, if_pos ⟨hk, hp⟩]
          have h2 := hcore
          rw [if_pos hp] at h2
          calc (zr * Wc U d zp tz) * AYc U d tz * AXc O d tz =
              zr * (Wc U d zp tz * AYc U d tz) * AXc O d tz := by ring
            _ = zr * (1 * AYc U d tz) * AXc O d tz := by rw [h2]
            _ = (zr * AYc U d tz) * AXc O d tz := by ring
        · rw [if_pos hk, if_neg (fun h => hp h.2)]
          have h2 := hcore
          rw [if_neg hp] at h2
          calc (zr * Wc U d zp tz) * AYc U d tz * AXc O d tz =
              zr * (Wc U d zp tz * AYc U d tz) * AXc O d tz := by ring
            _ = zr * (0 * AYc U d tz) * AXc O d tz := by rw [h2]
            _ = (0 * AYc U d tz) * AXc O d tz := by ring
      · rw [if_neg hk, if_neg (fun h => hk h.1)]
        ring
    _ = isum U (fun y =>
          (if (Kzc d τ zp tz ∧ d.2.1.pid = zp.pid) ∧ Cy2c d tz y
           then zr * y.2.2 else 0)) * AXc O d tz := by
      rw [isum_ite_factor U _ _ _ _]
    _ = isum U (fun y =>
          (if (Kzc d τ zp tz ∧ d.2.1.pid = zp.pid) ∧ Cy2c d tz y
           then zr * y.2.2 else 0) * AXc O d tz) := by
      rw [isum_mul_right U _ _]
    _ = isum U (fun y => isum O (fun x =>
          if ((Kzc d τ zp tz ∧ d.2.1.pid = zp.pid) ∧ Cy2c d tz y) ∧ Cxc d tz x
          then zr * y.2.2 * x.2.2 else 0)) := by
      apply isum_congr; intro y _
      rw [isum_ite_factor O _ _ _ _]
    _ = isum U (fun y => isum O (fun x =>
          if y.1.pid = zp.pid ∧ y.2.1 ≤ tz ∧ x.1.uid = y.1.uid ∧ x.2.1 ≤ tz ∧
             (x.1, y.1, zp) = d ∧ τ tz = true
          then zr * y.2.2 * x.2.2 else 0)) := by
      apply isum_congr; intro y _
      apply isum_congr; intro x _
      refine if_congr ?_ rfl rfl
      constructor
      · rintro ⟨⟨⟨⟨hzp, huid, hτ⟩, hpl⟩, hy, hty⟩, hx, htx⟩
        refine ⟨?_, hty, ?_, htx, ?_, hτ⟩
        · rw [hy]; exact hpl
        · rw [hx, hy]; exact huid
        · rw [hx, hy, hzp]
      · rintro ⟨h1, h2, h3, h4, h5, h6⟩
        have hx : x.1 = d.1 := by rw [← h5]
        have hy : y.1 = d.2.1 := by rw [← h5]
        have hzp : zp = d.2.2 := by rw [← h5]
        refine ⟨⟨⟨⟨hzp, ?_, h6⟩, ?_⟩, hy, h2⟩, hx, h4⟩
        · rw [← hx, ← hy]; exact h3
        · rw [← hy]; exact h1

theorem sumWhere_lm_eq (O : Collection Order) (U : Collection User)
    (P : Collection Province)
    (hfd : ∀ x ∈ U, ∀ y ∈ U, x.1.uid = y.1.uid → x.1.pid = y.1.pid)
    (h01 : ∀ (u : User) (t : Nat), accumAt U u t = 0 ∨ accumAt U u t = 1)
    (d : Order × User × Province) (τ : Nat → Bool) :
    sumWhere (delta_join_late_materialization O U P) d τ =
      sumWhere (delta_join O U P) d τ := by
  have hprov : sumWhere (final_map (province_path_lm O U P)) d τ =
      sumWhere (final_map (province_path O U P)) d τ := by
    rw [sumWhere_province_path_lm, sumWhere_province_path]
    simp only [visible_le, decide_eq_true_eq]
    apply isum_congr
    intro z _
    exact province_step O U hfd h01 d τ z.1 z.2.1 z.2.2
  have hsplit1 : sumWhere (delta_join_late_materialization O U P) d τ =
      sumWhere (final_map (order_path_lm O U P)) d τ +
        (sumWhere (final_map (user_path_lm O U P)) d τ +
          sumWhere (final_map (province_path_lm O U P)) d τ) := by
    rw [delta_join_late_materialization]
    simp only [final_map, List.map_append, sumWhere, isum_append]
    ring
  have hsplit2 : sumWhere (delta_join O U P) d τ =
      sumWhere (final_map (order_path O U P)) d τ +
        (sumWhere (final_map (user_path O U P)) d τ +
          sumWhere (final_map (province_path O U P)) d τ) := by
    rw [delta_join]
    simp only [final_map, List.map_append, sumWhere, isum_append]
    ring
  rw [hsplit1, hsplit2, order_path_lm_eq, user_path_lm_eq, hprov]

/-- C3 counterexample: inserting the same user record twice at time 0 (weight
2 in multiset semantics) makes the two constructions disagree on the joined
tuple's multiplicity at time 0 (`delta_join` yields 2, the
late-materialization variant squares the user weight and yields 4). -/
theorem claim_C3_identical_streams_counterexample :
    multAt (delta_join [(⟨⟨100⟩, 50, ⟨10⟩⟩, 0, 1)]
        [(⟨⟨10⟩, ⟨1⟩⟩, 0, 1), (⟨⟨10⟩, ⟨1⟩⟩, 0, 1)] [(⟨⟨1⟩, "B"⟩, 0, 1)])
      (⟨⟨100⟩, 50, ⟨10⟩⟩, ⟨⟨10⟩, ⟨1⟩⟩, ⟨⟨1⟩, "B"⟩) 0 ≠
      multAt (delta_join_late_materialization [(⟨⟨100⟩, 50, ⟨10⟩⟩, 0, 1)]
        [(⟨⟨10⟩, ⟨1⟩⟩, 0, 1), (⟨⟨10⟩, ⟨1⟩⟩, 0, 1)] [(⟨⟨1⟩, "B"⟩, 0, 1)])
      (⟨⟨100⟩, 50, ⟨10⟩⟩, ⟨⟨10⟩, ⟨1⟩⟩, ⟨⟨1⟩, "B"⟩) 0 := by
  decide

/-- C3 (amended): provided the user input stream treats uid as a primary key
— no two events carry the same uid with different pids, and every record's
accumulated multiplicity is 0 or 1 at every time — `delta_join` and
`delta_join_late_materialization` produce identical consolidated output
streams: the same tuples with the same times and multiplicities. -/
theorem claim_C3_late_materialization_equivalence
    (O : Collection Order) (U : Collection User) (P : Collection Province)
    (hfd : ∀ x ∈ U, ∀ y ∈ U, x.1.uid = y.1.uid → x.1.pid = y.1.pid)
    (h01 : ∀ (u : User) (t : Nat), accumAt U u t = 0 ∨ accumAt U u t = 1)
    (d : Order × User × Province) (t : Nat) :
    multAt (delta_join O U P) d t =
      multAt (delta_join_late_materialization O U P) d t :=
  (sumWhere_lm_eq O U P hfd h01 d _).symm

/-- Witness for the amended C3 at a concrete one-record-per-relation input. -/
theorem claim_C3_late_materialization_equivalence_witness :
    multAt (delta_join [(⟨⟨100⟩, 50, ⟨10⟩⟩, 0, 1)] [(⟨⟨10⟩, ⟨1⟩⟩, 0, 1)]
        [(⟨⟨1⟩, "B"⟩, 0, 1)])
      (⟨⟨100⟩, 50, ⟨10⟩⟩, ⟨⟨10⟩, ⟨1⟩⟩, ⟨⟨1⟩, "B"⟩) 0 =
      multAt (delta_join_late_materialization [(⟨⟨100⟩, 50, ⟨10⟩⟩, 0, 1)]
        [(⟨⟨10⟩, ⟨1⟩⟩, 0, 1)] [(⟨⟨1⟩, "B"⟩, 0, 1)])
      (⟨⟨100⟩, 50, ⟨10⟩⟩, ⟨⟨10⟩, ⟨1⟩⟩, ⟨⟨1⟩, "B"⟩) 0 :=
  claim_C3_late_materialization_equivalence
    [(⟨⟨100⟩, 50, ⟨10⟩⟩, 0, 1)] [(⟨⟨10⟩, ⟨1⟩⟩, 0, 1)] [(⟨⟨1⟩, "B"⟩, 0, 1)]
    (by
      intro x hx y hy _
      simp only [List.mem_singleton] at hx hy
      subst hx; subst hy; rfl)
    (by
      intro u t
      rw [accumAt_prop, isum_cons, isum_nil]
      split_ifs <;> simp)
    (⟨⟨100⟩, 50, ⟨10⟩⟩, ⟨⟨10⟩, ⟨1⟩⟩, ⟨⟨1⟩, "B"⟩) 0

theorem sumWhere_delta_split (O : Collection Order) (U : Collection User)
    (P : Collection Province) (d : Order × User × Province) (τ : Nat → Bool) :
    sumWhere (delta_join O U P) d τ =
      sumWhere (final_map (order_path O U P)) d τ +
        (sumWhere (final_map (user_path O U P)) d τ +
          sumWhere (final_map (province_path O U P)) d τ) := by
  rw [delta_join]
  simp only [final_map, List.map_append, sumWhere, isum_append]
  ring

/-- C2: when two relations joined on a common key receive matching inserts at
the same logical time `t`, the joined tuple appears in `delta_join` with total
multiplicity exactly 1 at `t`, counted by the higher-priority relation's delta
path and excluded by the lower-priority one's: an order-user tie at `t` (with
the province already present) is counted only by the user path, and a
user-province tie at `t` (with the order already present) only by the
province path. -/
theorem claim_C2_simultaneous_insert_single_count
    (o : Order) (u : User) (p : Province) (t s : Nat)
    (huid : o.uid = u.uid) (hpid : u.pid = p.pid) :
    (s < t →
      multAt (delta_join [(o, t, 1)] [(u, t, 1)] [(p, s, 1)]) (o, u, p) t = 1 ∧
      multAt (final_map (user_path [(o, t, 1)] [(u, t, 1)] [(p, s, 1)]))
        (o, u, p) t = 1 ∧
      multAt (final_map (order_path [(o, t, 1)] [(u, t, 1)] [(p, s, 1)]))
        (o, u, p) t = 0 ∧
      multAt (final_map (province_path [(o, t, 1)] [(u, t, 1)] [(p, s, 1)]))
        (o, u, p) t = 0) ∧
    (s ≤ t →
      multAt (delta_join [(o, s, 1)] [(u, t, 1)] [(p, t, 1)]) (o, u, p) t = 1 ∧
      multAt (final_map (province_path [(o, s, 1)] [(u, t, 1)] [(p, t, 1)]))
        (o, u, p) t = 1 ∧
      multAt (final_map (user_path [(o, s, 1)] [(u, t, 1)] [(p, t, 1)]))
        (o, u, p) t = 0 ∧
      multAt (final_map (order_path [(o, s, 1)] [(u, t, 1)] [(p, t, 1)]))
        (o, u, p) t = 0) := by
  constructor
  · intro hst
    have hts : ¬(t ≤ s) := by omega
    have hU : multAt (final_map (user_path [(o, t, 1)] [(u, t, 1)] [(p, s, 1)]))
        (o, u, p) t = 1 := by
      unfold multAt
      rw [sumWhere_user_path]
      simp [isum_cons, isum_nil, visible_le, visible_lt, huid, hpid, hst]
    have hO : multAt (final_map (order_path [(o, t, 1)] [(u, t, 1)] [(p, s, 1)]))
        (o, u, p) t = 0 := by
      unfold multAt
      rw [sumWhere_order_path]
      simp [isum_cons, isum_nil, visible_lt]
    have hP : multAt (final_map (province_path [(o, t, 1)] [(u, t, 1)] [(p, s, 1)]))
        (o, u, p) t = 0 := by
      unfold multAt
      rw [sumWhere_province_path]
      simp [isum_cons, isum_nil, visible_le, visible_lt, hts]
    refine ⟨?_, hU, hO, hP⟩
    unfold multAt at hU hO hP ⊢
    rw [sumWhere_delta_split, hU, hO, hP]
    norm_num
  · intro hst
    have hU : multAt (final_map (user_path [(o, s, 1)] [(u, t, 1)] [(p, t, 1)]))
        (o, u, p) t = 0 := by
      unfold multAt
      rw [sumWhere_user_path]
      simp [isum_cons, isum_nil, visible_le, visible_lt]
    have hO : multAt (final_map (order_path [(o, s, 1)] [(u, t, 1)] [(p, t, 1)]))
        (o, u, p) t = 0 := by
      have hts : ¬(t < s) := by omega
      unfold multAt
      rw [sumWhere_order_path]
      simp [isum_cons, isum_nil, visible_lt, hts]
    have hP : multAt (final_map (province_path [(o, s, 1)] [(u, t, 1)] [(p, t, 1)]))
        (o, u, p) t = 1 := by
      unfold multAt
      rw [sumWhere_province_path]
      simp [isum_cons, isum_nil, visible_le, huid, hpid, hst]
    refine ⟨?_, hP, hU, hO⟩
    unfold multAt at hU hO hP ⊢
    rw [sumWhere_delta_split, hU, hO, hP]
    norm_num

/-- Witness for C2 at a concrete tie: simultaneous inserts at time 2 with the
third relation present since time 0. -/
theorem claim_C2_simultaneous_insert_single_count_witness :
    multAt (delta_join [(⟨⟨100⟩, 50, ⟨10⟩⟩, 2, 1)] [(⟨⟨10⟩, ⟨1⟩⟩, 2, 1)]
        [(⟨⟨1⟩, "B"⟩, 0, 1)])
      (⟨⟨100⟩, 50, ⟨10⟩⟩, ⟨⟨10⟩, ⟨1⟩⟩, ⟨⟨1⟩, "B"⟩) 2 = 1 ∧
    multAt (delta_join [(⟨⟨100⟩, 50, ⟨10⟩⟩, 0, 1)] [(⟨⟨10⟩, ⟨1⟩⟩, 2, 1)]
        [(⟨⟨1⟩, "B"⟩, 2, 1)])
      (⟨⟨100⟩, 50, ⟨10⟩⟩, ⟨⟨10⟩, ⟨1⟩⟩, ⟨⟨1⟩, "B"⟩) 2 = 1 :=
  ⟨((claim_C2_simultaneous_insert_single_count ⟨⟨100⟩, 50, ⟨10⟩⟩ ⟨⟨10⟩, ⟨1⟩⟩
      ⟨⟨1⟩, "B"⟩ 2 0 rfl rfl).1 (by decide)).1,
    ((claim_C2_simultaneous_insert_single_count ⟨⟨100⟩, 50, ⟨10⟩⟩ ⟨⟨10⟩, ⟨1⟩⟩
      ⟨⟨1⟩, "B"⟩ 2 0 rfl rfl).2 (by decide)).1⟩

/-! ## Priority order and visibility rule (spec §4.3) -/

/-- The three joined relations. -/
inductive JRel
  | order
  | user
  | province
deriving DecidableEq

/-- The fixed priority order: order < user < province. -/
def priority : JRel → Nat
  | .order => 0
  | .user => 1
  | .province => 2

/-- Modelled from the spec (§4.3): the visibility predicate dictated solely by
the priority order — strict (`t1 < t2`, tie not visible) when the path's own
relation has lower priority than the probed relation, tie-visible (`t1 ≤ t2`)
when it has higher priority. -/
def prio_pred (i j : JRel) : Nat → Nat → Bool :=
  if priority i < priority j then visible_lt else visible_le

/-- `delta_join` re-expressed with every visibility predicate drawn from the
priority table of spec §4.3 instead of the source's inline closures. -/
def delta_join_prio (order : Collection Order) (user : Collection User)
    (province : Collection Province) : Collection (Order × User × Province) :=
  final_map
    ((half_join
        (remap_kvt (half_join (order_change order) (user_uid_arrange user)
          frontier_func (prio_pred .order .user) (fun _ o u => (u.pid, (o, u)))))
        (province_arrange province)
        frontier_func (prio_pred .order .province) (fun _ ou p => (ou.1, ou.2, p))) ++
      (half_join
        (remap_kvt (half_join (user_change user) (order_arrange order)
          frontier_func (prio_pred .user .order) (fun _ u o => (u.pid, (o, u)))))
        (province_arrange province)
        frontier_func (prio_pred .user .province) (fun _ ou p => (ou.1, ou.2, p))) ++
      (half_join
        (remap_kvt (half_join (province_change province) (user_pid_arrange user)
          frontier_func (prio_pred .province .user) (fun _ p u => (u.uid, (u, p)))))
        (order_arrange order)
        frontier_func (prio_pred .province .order) (fun _ up o => (o, up.1, up.2))))

/-- `delta_join_late_materialization` re-expressed with every visibility
predicate drawn from the priority table of spec §4.3. -/
def delta_join_lm_prio (order : Collection Order) (user : Collection User)
    (province : Collection Province) : Collection (Order × User × Province) :=
  final_map
    ((half_join
        (remap_kvt (half_join (order_change order) (user_uid_arrange user)
          frontier_func (prio_pred .order .user) (fun _ o u => (u.pid, (o, u)))))
        (province_arrange province)
        frontier_func (prio_pred .order .province) (fun _ ou p => (ou.1, ou.2, p))) ++
      (half_join
        (remap_kvt (half_join (user_change user) (order_arrange order)
          frontier_func (prio_pred .user .order) (fun _ u o => (u.pid, (o, u)))))
        (province_arrange province)
        frontier_func (prio_pred .user .province) (fun _ ou p => (ou.1, ou.2, p))) ++
      (half_join
        (remap_kvt (half_join
          (remap_kvt (half_join (province_change province) (user_pid_arrange_lm user)
            frontier_func (prio_pred .province .user) (fun _ p uid => (uid, p))))
          (user_uid_arrange user)
          frontier_func (prio_pred .province .user) (fun _ p u => (u.uid, (u, p)))))
        (order_arrange order)
        frontier_func (prio_pred .province .order) (fun _ up o => (o, up.1, up.2))))

/-- C5: under the fixed priority order order < user < province, every
half-join step of both delta-join variants uses exactly the visibility
predicate the priority table dictates: `t1 < t2` where the path's relation has
lower priority than the probed one, `t1 ≤ t2` where it has higher priority;
rebuilding both constructions from the priority table reproduces them
exactly. -/
theorem claim_C5_visibility_follows_priority :
    prio_pred .order .user = visible_lt ∧
    prio_pred .order .province = visible_lt ∧
    prio_pred .user .province = visible_lt ∧
    prio_pred .user .order = visible_le ∧
    prio_pred .province .user = visible_le ∧
    prio_pred .province .order = visible_le ∧
    (∀ (O : Collection Order) (U : Collection User) (P : Collection Province),
      delta_join O U P = delta_join_prio O U P) ∧
    (∀ (O : Collection Order) (U : Collection User) (P : Collection Province),
      delta_join_late_materialization O U P = delta_join_lm_prio O U P) :=
  ⟨rfl, rfl, rfl, rfl, rfl, rfl, fun _ _ _ => rfl, fun _ _ _ => rfl⟩

/-! ## Emitted times originate from the triggering event -/

theorem mem_half_join {K V W D : Type} [DecidableEq K]
    {stream : Collection (K × V × Nat)} {arrangement : Collection (K × W)}
    {ff : Nat → Nat} {v : Nat → Nat → Bool} {c : K → V → W → D}
    {e : (D × Nat) × Nat × Int} :
    e ∈ half_join stream arrangement ff v c ↔
      ∃ s ∈ stream, ∃ a ∈ arrangement,
        (a.1.1 = s.1.1 ∧ v a.2.1 s.1.2.2 = true) ∧
        e = ((c s.1.1 s.1.2.1 a.1.2, s.1.2.2), max s.2.1 a.2.1, s.2.2 * a.2.2) := by
  simp [half_join, List.mem_filter, Bool.and_eq_true, decide_eq_true_eq]
  tauto

theorem mem_cmap {A B : Type} {f : A → B} {xs : Collection A}
    {e : B × Nat × Int} :
    e ∈ cmap f xs ↔ ∃ x ∈ xs, e = (f x.1, x.2.1, x.2.2) := by
  simp [cmap]
  tauto

theorem order_path_origin (O : Collection Order) (U : Collection User)
    (P : Collection Province) :
    ∀ e ∈ order_path O U P, ∃ x ∈ O, e.1.1.1 = x.1 ∧ e.1.2 = x.2.1 := by
  intro e he
  rw [order_path, mem_half_join] at he
  obtain ⟨s, hs, a, -, -, rfl⟩ := he
  rw [remap_kvt, mem_cmap] at hs
  obtain ⟨w, hw, rfl⟩ := hs
  rw [mem_half_join] at hw
  obtain ⟨s0, hs0, a0, -, -, rfl⟩ := hw
  rw [order_change, List.mem_map] at hs0
  obtain ⟨x, hx, rfl⟩ := hs0
  exact ⟨x, hx, rfl, rfl⟩

theorem user_path_origin (O : Collection Order) (U : Collection User)
    (P : Collection Province) :
    ∀ e ∈ user_path O U P, ∃ x ∈ U, e.1.1.2.1 = x.1 ∧ e.1.2 = x.2.1 := by
  intro e he
  rw [user_path, mem_half_join] at he
  obtain ⟨s, hs, a, -, -, rfl⟩ := he
  rw [remap_kvt, mem_cmap] at hs
  obtain ⟨w, hw, rfl⟩ := hs
  rw [mem_half_join] at hw
  obtain ⟨s0, hs0, a0, -, -, rfl⟩ := hw
  rw [user_change, List.mem_map] at hs0
  obtain ⟨x, hx, rfl⟩ := hs0
  exact ⟨x, hx, rfl, rfl⟩

theorem province_path_origin (O : Collection Order) (U : Collection User)
    (P : Collection Province) :
    ∀ e ∈ province_path O U P, ∃ x ∈ P, e.1.1.2.2 = x.1 ∧ e.1.2 = x.2.1 := by
  intro e he
  rw [province_path, mem_half_join] at he
  obtain ⟨s, hs, a, -, -, rfl⟩ := he
  rw [remap_kvt, mem_cmap] at hs
  obtain ⟨w, hw, rfl⟩ := hs
  rw [mem_half_join] at hw
  obtain ⟨s0, hs0, a0, -, -, rfl⟩ := hw
  rw [province_change, List.mem_map] at hs0
  obtain ⟨x, hx, rfl⟩ := hs0
  exact ⟨x, hx, rfl, rfl⟩

theorem province_path_lm_origin (O : Collection Order) (U : Collection User)
    (P : Collection Province) :
    ∀ e ∈ province_path_lm O U P, ∃ x ∈ P, e.1.1.2.2 = x.1 ∧ e.1.2 = x.2.1 := by
  intro e he
  rw [province_path_lm, mem_half_join] at he
  obtain ⟨s, hs, a, -, -, rfl⟩ := he
  rw [remap_kvt, mem_cmap] at hs
  obtain ⟨w, hw, rfl⟩ := hs
  rw [mem_half_join] at hw
  obtain ⟨s1, hs1, a1, -, -, rfl⟩ := hw
  rw [remap_kvt, mem_cmap] at hs1
  obtain ⟨w0, hw0, rfl⟩ := hs1
  rw [mem_half_join] at hw0
  obtain ⟨s0, hs0, a0, -, -, rfl⟩ := hw0
  rw [province_change, List.mem_map] at hs0
  obtain ⟨x, hx, rfl⟩ := hs0
  exact ⟨x, hx, rfl, rfl⟩

/-- C7: every tuple emitted by `delta_join` (and by
`delta_join_late_materialization`) carries the time of the change event that
triggered its path, not a probed arrangement entry's time: the stamped time
equals the originating event's own time, and the tuple's component for that
relation is the originating event's record. -/
theorem claim_C7_output_time_is_origin_time :
    (∀ (O : Collection Order) (U : Collection User) (P : Collection Province)
        (e : (Order × User × Province) × Nat × Int), e ∈ delta_join O U P →
      (∃ x ∈ O, e.1.1 = x.1 ∧ e.2.1 = x.2.1) ∨
        (∃ x ∈ U, e.1.2.1 = x.1 ∧ e.2.1 = x.2.1) ∨
        (∃ x ∈ P, e.1.2.2 = x.1 ∧ e.2.1 = x.2.1)) ∧
    (∀ (O : Collection Order) (U : Collection User) (P : Collection Province)
        (e : (Order × User × Province) × Nat × Int),
        e ∈ delta_join_late_materialization O U P →
      (∃ x ∈ O, e.1.1 = x.1 ∧ e.2.1 = x.2.1) ∨
        (∃ x ∈ U, e.1.2.1 = x.1 ∧ e.2.1 = x.2.1) ∨
        (∃ x ∈ P, e.1.2.2 = x.1 ∧ e.2.1 = x.2.1)) := by
  constructor
  · intro O U P e he
    rw [delta_join, final_map, List.mem_map] at he
    obtain ⟨w, hw, rfl⟩ := he
    rw [List.mem_append, List.mem_append] at hw
    rcases hw with (h | h) | h
    · obtain ⟨x, hx, h1, h2⟩ := order_path_origin O U P w h
      exact Or.inl ⟨x, hx, h1, h2⟩
    · obtain ⟨x, hx, h1, h2⟩ := user_path_origin O U P w h
      exact Or.inr (Or.inl ⟨x, hx, h1, h2⟩)
    · obtain ⟨x, hx, h1, h2⟩ := province_path_origin O U P w h
      exact Or.inr (Or.inr ⟨x, hx, h1, h2⟩)
  · intro O U P e he
    rw [delta_join_late_materialization, final_map, List.mem_map] at he
    obtain ⟨w, hw, rfl⟩ := he
    rw [List.mem_append, List.mem_append] at hw
    rcases hw with (h | h) | h
    · obtain ⟨x, hx, h1, h2⟩ :=
        order_path_origin O U P w (by rw [← order_path_lm_eq O U P]; exact h)
      exact Or.inl ⟨x, hx, h1, h2⟩
    · obtain ⟨x, hx, h1, h2⟩ :=
        user_path_origin O U P w (by rw [← user_path_lm_eq O U P]; exact h)
      exact Or.inr (Or.inl ⟨x, hx, h1, h2⟩)
    · obtain ⟨x, hx, h1, h2⟩ := province_path_lm_origin O U P w h
      exact Or.inr (Or.inr ⟨x, hx, h1, h2⟩)

/-- Witness for C7 at a concrete input: the single tuple produced by one
insert per relation is stamped with its originating event's time. -/
theorem claim_C7_output_time_is_origin_time_witness :
    (∃ x ∈ [((⟨⟨100⟩, 50, ⟨10⟩⟩ : Order), 0, (1 : Int))],
        ((⟨⟨100⟩, 50, ⟨10⟩⟩, ⟨⟨10⟩, ⟨1⟩⟩, ⟨⟨1⟩, "B"⟩) :
          Order × User × Province).1 = x.1 ∧ (0 : Nat) = x.2.1) ∨
      (∃ x ∈ [((⟨⟨10⟩, ⟨1⟩⟩ : User), 0, (1 : Int))],
        ((⟨⟨100⟩, 50, ⟨10⟩⟩, ⟨⟨10⟩, ⟨1⟩⟩, ⟨⟨1⟩, "B"⟩) :
          Order × User × Province).2.1 = x.1 ∧ (0 : Nat) = x.2.1) ∨
      (∃ x ∈ [((⟨⟨1⟩, "B"⟩ : Province), 0, (1 : Int))],
        ((⟨⟨100⟩, 50, ⟨10⟩⟩, ⟨⟨10⟩, ⟨1⟩⟩, ⟨⟨1⟩, "B"⟩) :
          Order × User × Province).2.2 = x.1 ∧ (0 : Nat) = x.2.1) :=
  claim_C7_output_time_is_origin_time.1
    [(⟨⟨100⟩, 50, ⟨10⟩⟩, 0, 1)] [(⟨⟨10⟩, ⟨1⟩⟩, 0, 1)] [(⟨⟨1⟩, "B"⟩, 0, 1)]
    ((⟨⟨100⟩, 50, ⟨10⟩⟩, ⟨⟨10⟩, ⟨1⟩⟩, ⟨⟨1⟩, "B"⟩), 0, 1) (by decide)

/-! ## Late-materialization structure and the key chain -/

theorem province_path_lm_resolves (O : Collection Order) (U : Collection User)
    (P : Collection Province) :
    ∀ e ∈ province_path_lm O U P,
      ∃ w ∈ U, e.1.1.2.1 = w.1 ∧ w.2.1 ≤ e.1.2 := by
  intro e he
  rw [province_path_lm, mem_half_join] at he
  obtain ⟨s, hs, a, -, -, rfl⟩ := he
  rw [remap_kvt, mem_cmap] at hs
  obtain ⟨w1, hw1, rfl⟩ := hs
  rw [mem_half_join] at hw1
  obtain ⟨s1, hs1, a1, ha1, hcond, rfl⟩ := hw1
  rw [user_uid_arrange, arrange_by_key, mem_cmap] at ha1
  obtain ⟨w, hw, rfl⟩ := ha1
  refine ⟨w, hw, rfl, ?_⟩
  have h2 := hcond.2
  simp only [visible_le, decide_eq_true_eq] at h2
  exact h2

/-- C8: in `delta_join_late_materialization` the pid-keyed secondary
arrangement of User stores only the primary key uid; the province path is the
three-step composition whose middle (extra) half-join probes the primary
uid-keyed User arrangement with tie-visible predicate `t1 ≤ t2` and resolves
the uid back into a full User record from the User stream, visible at the
event's own time; the other two paths are unchanged from `delta_join`. -/
theorem claim_C8_late_materialization_structure :
    (∀ U : Collection User, user_pid_arrange_lm U =
      U.map (fun e => ((e.1.pid, e.1.uid), e.2.1, e.2.2))) ∧
    (∀ (O : Collection Order) (U : Collection User) (P : Collection Province),
      province_path_lm O U P =
        half_join
          (remap_kvt (half_join
            (remap_kvt (half_join (province_change P) (user_pid_arrange_lm U)
              frontier_func visible_le (fun _ p uid => (uid, p))))
            (user_uid_arrange U)
            frontier_func visible_le (fun _ p u => (u.uid, (u, p)))))
          (order_arrange O)
          frontier_func visible_le (fun _ up o => (o, up.1, up.2))) ∧
    (∀ (O : Collection Order) (U : Collection User) (P : Collection Province),
      order_path_lm O U P = order_path O U P ∧
        user_path_lm O U P = user_path O U P) ∧
    (∀ (O : Collection Order) (U : Collection User) (P : Collection Province),
      ∀ e ∈ province_path_lm O U P,
        ∃ w ∈ U, e.1.1.2.1 = w.1 ∧ w.2.1 ≤ e.1.2) :=
  ⟨fun _ => rfl, fun _ _ _ => rfl, fun _ _ _ => ⟨rfl, rfl⟩,
    province_path_lm_resolves⟩

/-- Witness for C8's resolution clause at a concrete input. -/
theorem claim_C8_late_materialization_structure_witness :
    ∃ w ∈ [((⟨⟨10⟩, ⟨1⟩⟩ : User), 0, (1 : Int))],
      (((⟨⟨100⟩, 50, ⟨10⟩⟩, ⟨⟨10⟩, ⟨1⟩⟩, ⟨⟨1⟩, "B"⟩) :
          Order × User × Province), (0 : Nat)).1.2.1 = w.1 ∧
        w.2.1 ≤ (((⟨⟨100⟩, 50, ⟨10⟩⟩, ⟨⟨10⟩, ⟨1⟩⟩, ⟨⟨1⟩, "B"⟩) :
          Order × User × Province), (0 : Nat)).2 :=
  claim_C8_late_materialization_structure.2.2.2
    [(⟨⟨100⟩, 50, ⟨10⟩⟩, 0, 1)] [(⟨⟨10⟩, ⟨1⟩⟩, 0, 1)] [(⟨⟨1⟩, "B"⟩, 0, 1)]
    (((⟨⟨100⟩, 50, ⟨10⟩⟩, ⟨⟨10⟩, ⟨1⟩⟩, ⟨⟨1⟩, "B"⟩), 0), 0, 1) (by decide)

theorem mem_join_map {K A B C : Type} [DecidableEq K]
    {xs : Collection (K × A)} {ys : Collection (K × B)} {f : K → A → B → C}
    {e : C × Nat × Int} :
    e ∈ join_map xs ys f ↔
      ∃ x ∈ xs, ∃ y ∈ ys, y.1.1 = x.1.1 ∧
        e = (f x.1.1 x.1.2 y.1.2, max x.2.1 y.2.1, x.2.2 * y.2.2) := by
  simp [join_map, List.mem_filter, decide_eq_true_eq]
  tauto

theorem regular_join_chain (O : Collection Order) (U : Collection User)
    (P : Collection Province) :
    ∀ e ∈ regular_join O U P,
      e.1.1.uid = e.1.2.1.uid ∧ e.1.2.1.pid = e.1.2.2.pid := by
  intro e he
  rw [regular_join, mem_join_map] at he
  obtain ⟨w, hw, z1, hz1, hk2, rfl⟩ := he
  rw [mem_cmap] at hz1
  obtain ⟨z, hz, rfl⟩ := hz1
  rw [mem_join_map] at hw
  obtain ⟨x1, hx1, y1, hy1, hk1, rfl⟩ := hw
  rw [mem_cmap] at hx1
  obtain ⟨x, hx, rfl⟩ := hx1
  rw [mem_cmap] at hy1
  obtain ⟨y, hy, rfl⟩ := hy1
  exact ⟨hk1.symm, hk2.symm⟩

theorem order_path_chain (O : Collection Order) (U : Collection User)
    (P : Collection Province) :
    ∀ e ∈ order_path O U P,
      e.1.1.1.uid = e.1.1.2.1.uid ∧ e.1.1.2.1.pid = e.1.1.2.2.pid := by
  intro e he
  rw [order_path, mem_half_join] at he
  obtain ⟨s, hs, a, ha, hc, rfl⟩ := he
  rw [province_arrange, arrange_by_key, mem_cmap] at ha
  obtain ⟨z, hz, rfl⟩ := ha
  rw [remap_kvt, mem_cmap] at hs
  obtain ⟨w, hw, rfl⟩ := hs
  rw [mem_half_join] at hw
  obtain ⟨s0, hs0, a0, ha0, hc0, rfl⟩ := hw
  rw [user_uid_arrange, arrange_by_key, mem_cmap] at ha0
  obtain ⟨y, hy, rfl⟩ := ha0
  rw [order_change, List.mem_map] at hs0
  obtain ⟨x, hx, rfl⟩ := hs0
  exact ⟨hc0.1.symm, hc.1.symm⟩

theorem user_path_chain (O : Collection Order) (U : Collection User)
    (P : Collection Province) :
    ∀ e ∈ user_path O U P,
      e.1.1.1.uid = e.1.1.2.1.uid ∧ e.1.1.2.1.pid = e.1.1.2.2.pid := by
  intro e he
  rw [user_path, mem_half_join] at he
  obtain ⟨s, hs, a, ha, hc, rfl⟩ := he
  rw [province_arrange, arrange_by_key, mem_cmap] at ha
  obtain ⟨z, hz, rfl⟩ := ha
  rw [remap_kvt, mem_cmap] at hs
  obtain ⟨w, hw, rfl⟩ := hs
  rw [mem_half_join] at hw
  obtain ⟨s0, hs0, a0, ha0, hc0, rfl⟩ := hw
  rw [order_arrange, arrange_by_key, mem_cmap] at ha0
  obtain ⟨x, hx, rfl⟩ := ha0
  rw [user_change, List.mem_map] at hs0
  obtain ⟨y, hy, rfl⟩ := hs0
  exact ⟨hc0.1, hc.1.symm⟩

theorem province_path_chain (O : Collection Order) (U : Collection User)
    (P : Collection Province) :
    ∀ e ∈ province_path O U P,
      e.1.1.1.uid = e.1.1.2.1.uid ∧ e.1.1.2.1.pid = e.1.1.2.2.pid := by
  intro e he
  rw [province_path, mem_half_join] at he
  obtain ⟨s, hs, a, ha, hc, rfl⟩ := he
  rw [order_arrange, arrange_by_key, mem_cmap] at ha
  obtain ⟨x, hx, rfl⟩ := ha
  rw [remap_kvt, mem_cmap] at hs
  obtain ⟨w, hw, rfl⟩ := hs
  rw [mem_half_join] at hw
  obtain ⟨s0, hs0, a0, ha0, hc0, rfl⟩ := hw
  rw [user_pid_arrange, arrange_by_key, mem_cmap] at ha0
  obtain ⟨y, hy, rfl⟩ := ha0
  rw [province_change, List.mem_map] at hs0
  obtain ⟨z, hz, rfl⟩ := hs0
  exact ⟨hc.1, hc0.1⟩

theorem province_path_lm_uid (O : Collection Order) (U : Collection User)
    (P : Collection Province) :
    ∀ e ∈ province_path_lm O U P, e.1.1.1.uid = e.1.1.2.1.uid := by
  intro e he
  rw [province_path_lm, mem_half_join] at he
  obtain ⟨s, hs, a, ha, hc, rfl⟩ := he
  rw [order_arrange, arrange_by_key, mem_cmap] at ha
  obtain ⟨x, hx, rfl⟩ := ha
  rw [remap_kvt, mem_cmap] at hs
  obtain ⟨w1, hw1, rfl⟩ := hs
  rw [mem_half_join] at hw1
  obtain ⟨s1, hs1, a1, ha1, hc1, rfl⟩ := hw1
  rw [user_uid_arrange, arrange_by_key, mem_cmap] at ha1
  obtain ⟨w, hw, rfl⟩ := ha1
  exact hc.1

theorem province_path_lm_chain (O : Collection Order) (U : Collection User)
    (P : Collection Province)
    (hfd : ∀ x ∈ U, ∀ y ∈ U, x.1.uid = y.1.uid → x.1.pid = y.1.pid) :
    ∀ e ∈ province_path_lm O U P,
      e.1.1.1.uid = e.1.1.2.1.uid ∧ e.1.1.2.1.pid = e.1.1.2.2.pid := by
  intro e he
  have huid := province_path_lm_uid O U P e he
  rw [province_path_lm, mem_half_join] at he
  obtain ⟨s, hs, a, ha, hc, rfl⟩ := he
  rw [order_arrange, arrange_by_key, mem_cmap] at ha
  obtain ⟨x, hx, rfl⟩ := ha
  rw [remap_kvt, mem_cmap] at hs
  obtain ⟨w1, hw1, rfl⟩ := hs
  rw [mem_half_join] at hw1
  obtain ⟨s1, hs1, a1, ha1, hc1, rfl⟩ := hw1
  rw [user_uid_arrange, arrange_by_key, mem_cmap] at ha1
  obtain ⟨w, hw, rfl⟩ := ha1
  rw [remap_kvt, mem_cmap] at hs1
  obtain ⟨w0, hw0, rfl⟩ := hs1
  rw [mem_half_join] at hw0
  obtain ⟨s0, hs0, a0, ha0, hc0, rfl⟩ := hw0
  rw [user_pid_arrange_lm, arrange_by_key, mem_cmap] at ha0
  obtain ⟨y0, hy0, rfl⟩ := ha0
  rw [province_change, List.mem_map] at hs0
  obtain ⟨z, hz, rfl⟩ := hs0
  refine ⟨hc.1, ?_⟩
  have h1 : w.1.uid = y0.1.uid := hc1.1
  have h2 : y0.1.pid = z.1.pid := hc0.1
  have h3 := hfd w hw y0 hy0 h1
  exact h3.trans h2

/-- C9 counterexample: with two distinct User records sharing uid 10 both
visible, `delta_join_late_materialization` emits the tuple pairing the order
and Province(pid 1) with User(uid 10, pid 2) at multiplicity 1, breaking the
User-Province link of the declared foreign-key chain. -/
theorem claim_C9_key_chain_counterexample :
    multAt (delta_join_late_materialization [(⟨⟨100⟩, 50, ⟨10⟩⟩, 0, 1)]
        [(⟨⟨10⟩, ⟨1⟩⟩, 0, 1), (⟨⟨10⟩, ⟨2⟩⟩, 0, 1)] [(⟨⟨1⟩, "B"⟩, 0, 1)])
      (⟨⟨100⟩, 50, ⟨10⟩⟩, ⟨⟨10⟩, ⟨2⟩⟩, ⟨⟨1⟩, "B"⟩) 0 = 1 ∧
      (⟨⟨10⟩, ⟨2⟩⟩ : User).pid ≠ (⟨⟨1⟩, "B"⟩ : Province).pid := by
  decide

/-- C9 (amended): every tuple emitted by `regular_join`, `regular_join_core`
or `delta_join` satisfies the declared foreign-key chain (order.uid =
user.uid and user.pid = province.pid); for
`delta_join_late_materialization` the order-user link always holds, and the
user-province link holds provided no two events of the User input carry the
same uid with different pids. -/
theorem claim_C9_key_chain_invariant :
    (∀ (O : Collection Order) (U : Collection User) (P : Collection Province),
      ∀ e ∈ regular_join O U P,
        e.1.1.uid = e.1.2.1.uid ∧ e.1.2.1.pid = e.1.2.2.pid) ∧
    (∀ (O : Collection Order) (U : Collection User) (P : Collection Province),
      ∀ e ∈ regular_join_core O U P,
        e.1.1.uid = e.1.2.1.uid ∧ e.1.2.1.pid = e.1.2.2.pid) ∧
    (∀ (O : Collection Order) (U : Collection User) (P : Collection Province),
      ∀ e ∈ delta_join O U P,
        e.1.1.uid = e.1.2.1.uid ∧ e.1.2.1.pid = e.1.2.2.pid) ∧
    (∀ (O : Collection Order) (U : Collection User) (P : Collection Province),
      ∀ e ∈ delta_join_late_materialization O U P, e.1.1.uid = e.1.2.1.uid) ∧
    (∀ (O : Collection Order) (U : Collection User) (P : Collection Province),
      (∀ x ∈ U, ∀ y ∈ U, x.1.uid = y.1.uid → x.1.pid = y.1.pid) →
      ∀ e ∈ delta_join_late_materialization O U P,
        e.1.1.uid = e.1.2.1.uid ∧ e.1.2.1.pid = e.1.2.2.pid) := by
  refine ⟨regular_join_chain, ?_, ?_, ?_, ?_⟩
  · intro O U P e he
    rw [regular_join_core_eq] at he
    exact regular_join_chain O U P e he
  · intro O U P e he
    rw [delta_join, final_map, List.mem_map] at he
    obtain ⟨w, hw, rfl⟩ := he
    rw [List.mem_append, List.mem_append] at hw
    rcases hw with (h | h) | h
    · exact order_path_chain O U P w h
    · exact user_path_chain O U P w h
    · exact province_path_chain O U P w h
  · intro O U P e he
    rw [delta_join_late_materialization, final_map, List.mem_map] at he
    obtain ⟨w, hw, rfl⟩ := he
    rw [List.mem_append, List.mem_append] at hw
    rcases hw with (h | h) | h
    · exact (order_path_chain O U P w
        (by rw [← order_path_lm_eq O U P]; exact h)).1
    · exact (user_path_chain O U P w
        (by rw [← user_path_lm_eq O U P]; exact h)).1
    · exact province_path_lm_uid O U P w h
  · intro O U P hfd e he
    rw [delta_join_late_materialization, final_map, List.mem_map] at he
    obtain ⟨w, hw, rfl⟩ := he
    rw [List.mem_append, List.mem_append] at hw
    rcases hw with (h | h) | h
    · exact order_path_chain O U P w (by rw [← order_path_lm_eq O U P]; exact h)
    · exact user_path_chain O U P w (by rw [← user_path_lm_eq O U P]; exact h)
    · exact province_path_lm_chain O U P hfd w h

/-- Witness for C9 at a concrete input: the single emitted tuple of a
one-record-per-relation run satisfies the foreign-key chain. -/
theorem claim_C9_key_chain_invariant_witness :
    (((⟨⟨100⟩, 50, ⟨10⟩⟩, ⟨⟨10⟩, ⟨1⟩⟩, ⟨⟨1⟩, "B"⟩) : Order × User × Province),
        (0 : Nat), (1 : Int)).1.1.uid =
      (((⟨⟨100⟩, 50, ⟨10⟩⟩, ⟨⟨10⟩, ⟨1⟩⟩, ⟨⟨1⟩, "B"⟩) : Order × User × Province),
        (0 : Nat), (1 : Int)).1.2.1.uid ∧
    (((⟨⟨100⟩, 50, ⟨10⟩⟩, ⟨⟨10⟩, ⟨1⟩⟩, ⟨⟨1⟩, "B"⟩) : Order × User × Province),
        (0 : Nat), (1 : Int)).1.2.1.pid =
      (((⟨⟨100⟩, 50, ⟨10⟩⟩, ⟨⟨10⟩, ⟨1⟩⟩, ⟨⟨1⟩, "B"⟩) : Order × User × Province),
        (0 : Nat), (1 : Int)).1.2.2.pid :=
  claim_C9_key_chain_invariant.2.2.1
    [(⟨⟨100⟩, 50, ⟨10⟩⟩, 0, 1)] [(⟨⟨10⟩, ⟨1⟩⟩, 0, 1)] [(⟨⟨1⟩, "B"⟩, 0, 1)]
    ((⟨⟨100⟩, 50, ⟨10⟩⟩, ⟨⟨10⟩, ⟨1⟩⟩, ⟨⟨1⟩, "B"⟩), 0, 1) (by decide)
